import Mathlib

/-!
Shallow embedding of the `firestore-path` Rust library (path/name types for a
Firestore-like hierarchical addressing scheme) together with proofs about its
parsing, formatting and navigation operations.

Strings are modelled as `List Char` (Rust iterates `char`s and measures byte
lengths; byte length is modelled by summing `Char.utf8Size`).  Fallible
constructors are modelled with `Except`; the few places where the Rust code
can panic (`expect`, `unreachable!`) are modelled with an outer `Option`
layer where `none` stands for the panic.
-/

set_option maxRecDepth 4096

namespace FirestorePath

/-- Strings as lists of unicode scalar values, as iterated by Rust `str::chars`. -/
abbrev Str := List Char

/-- Convert a Lean string literal to the `Str` model. -/
def str (s : String) : Str := s.data

/-- Rust `str::len`: the UTF-8 byte length of a string. -/
def utf8Len (s : Str) : Nat := (s.map Char.utf8Size).sum

/-- `isPfx p s` is Rust `s.starts_with(p)`. -/
def isPfx : Str → Str → Bool
  | [], _ => true
  | _ :: _, [] => false
  | p :: ps, c :: cs => p == c && isPfx ps cs

/-- `isSfx p s` is Rust `s.ends_with(p)`. -/
def isSfx (p s : Str) : Bool := isPfx p.reverse s.reverse

/-- `hasSub pat s` is Rust `s.contains(pat)` for a string pattern. -/
def hasSub (pat : Str) : Str → Bool
  | [] => pat == []
  | c :: cs => isPfx pat (c :: cs) || hasSub pat cs

/-- Rust `str::rsplit_once(sep)`: split at the last occurrence of `sep`,
returning the parts before and after it, or `none` when `sep` is absent. -/
def rsplitOnce (sep : Char) : Str → Option (Str × Str)
  | [] => none
  | c :: cs =>
    match rsplitOnce sep cs with
    | some (a, b) => some (c :: a, b)
    | none => if c = sep then some ([], cs) else none

/-- Prepend a character to the first part of a part list. -/
def consHead (c : Char) : List Str → List Str
  | [] => [[c]]
  | h :: t => (c :: h) :: t

/-- Rust `str::split(sep).collect()`: the `/`-separated parts of a string
(`splitSep sep [] = [[]]`, matching Rust where `"".split('/')` yields one
empty part). -/
def splitSep (sep : Char) : Str → List Str
  | [] => [[]]
  | c :: cs =>
    if c = sep then [] :: splitSep sep cs else consHead c (splitSep sep cs)

/-- Rust `parts.join(sep)` (with a single-character separator). -/
def joinSep (sep : Char) : List Str → Str
  | [] => []
  | [p] => p
  | p :: ps => p ++ sep :: joinSep sep ps

/-- The error kinds of the crate's shared error type (`error.rs`), together
with the `CollectionIdConversion` wrapper referenced by `document_path.rs`. -/
inductive ErrorKind where
  | CollectionIdConversion (msg : Str)
  | CollectionPathConversion (msg : Str)
  | ContainsInvalidCharacter
  | ContainsSlash
  | DocumentIdConversion (msg : Str)
  | DocumentPathConversion (msg : Str)
  | EndsWithHyphen
  | InvalidName
  | InvalidNumberOfPathComponents
  | LengthOutOfBounds
  | MatchesReservedIdPattern
  | NotContainsSlash
  | SinglePeriodOrDoublePeriods
  | StartsWithNonLetter
deriving DecidableEq, Repr

/-- The module-local error type of `project_id.rs`: a single placeholder
variant rendered as "todo". -/
inductive ProjectIdError where
  | ToDo
deriving DecidableEq, Repr

/-- Errors produced while parsing a fully-qualified name: either a shared
`ErrorKind`, or the separate placeholder error of `project_id.rs`. -/
inductive NameErr where
  | kind (k : ErrorKind)
  | pid (e : ProjectIdError)
deriving DecidableEq, Repr

deriving instance DecidableEq for Except

/-- The character class of `ProjectId`/`DatabaseId` segments:
`c.is_ascii_lowercase() || c.is_ascii_digit() || c == '-'`. -/
def idChar (c : Char) : Bool := c.isLower || c.isDigit || c == '-'

structure ProjectId where
  val : Str
deriving DecidableEq, Repr

/-- `TryFrom<String> for ProjectId` (`project_id.rs`).  The outer `Option` is
`none` exactly when one of the two `expect` calls would panic: both
`chars().next()` and `chars().next_back()` are `None` exactly when the string
is empty, so the panic is modelled by a single emptiness guard, and
`headI`/`getLastI` read the first and last character on the non-empty branch. -/
def ProjectId.tryFromP (s : Str) : Option (Except ProjectIdError ProjectId) :=
  if ¬(6 ≤ utf8Len s ∧ utf8Len s ≤ 30) then some (.error .ToDo)
  else if ¬(s.all idChar) then some (.error .ToDo)
  else if s.isEmpty then none
  else if ¬s.headI.isLower then some (.error .ToDo)
  else if s.getLastI = '-' then some (.error .ToDo)
  else if hasSub (str "google") s || hasSub (str "null") s ||
      hasSub (str "undefined") s || hasSub (str "ssl") s then
    some (.error .ToDo)
  else some (.ok ⟨s⟩)

/-- Total wrapper around `ProjectId.tryFromP`; the default is never used
(`projectId_never_panics`). -/
def ProjectId.tryFrom (s : Str) : Except ProjectIdError ProjectId :=
  (ProjectId.tryFromP s).getD (.error .ToDo)

def ProjectId.toStr (p : ProjectId) : Str := p.val

structure DatabaseId where
  val : Str
deriving DecidableEq, Repr

/-- `TryFrom<String> for DatabaseId` (`database_id.rs`).  The outer `Option`
is `none` exactly when the `expect` call on the first character would panic,
i.e. when the string is empty at that point. -/
def DatabaseId.tryFromP (s : Str) : Option (Except ErrorKind DatabaseId) :=
  if s = str "(default)" then some (.ok ⟨s⟩)
  else if ¬(4 ≤ utf8Len s ∧ utf8Len s ≤ 63) then some (.error .LengthOutOfBounds)
  else if ¬(s.all idChar) then some (.error .ContainsInvalidCharacter)
  else if s.isEmpty then none
  else if ¬s.headI.isLower then some (.error .StartsWithNonLetter)
  else if isSfx (str "-") s then some (.error .EndsWithHyphen)
  else some (.ok ⟨s⟩)

/-- Total wrapper around `DatabaseId.tryFromP`; the default is never used
(`databaseId_never_panics`). -/
def DatabaseId.tryFrom (s : Str) : Except ErrorKind DatabaseId :=
  (DatabaseId.tryFromP s).getD (.error .LengthOutOfBounds)

def DatabaseId.toStr (d : DatabaseId) : Str := d.val

/-- The reserved-identifier check shared by `collection_id.rs` and
`document_id.rs`: `s.starts_with("__") && s.ends_with("__")`. -/
def reservedIdCheck (s : Str) : Bool := isPfx (str "__") s && isSfx (str "__") s

structure CollectionId where
  val : Str
deriving DecidableEq, Repr

/-- `TryFrom<String> for CollectionId` (`collection_id.rs`). -/
def CollectionId.tryFrom (s : Str) : Except ErrorKind CollectionId :=
  if ¬(1 ≤ utf8Len s ∧ utf8Len s ≤ 1500) then .error .LengthOutOfBounds
  else if '/' ∈ s then .error .ContainsSlash
  else if s = str "." ∨ s = str ".." then .error .SinglePeriodOrDoublePeriods
  else if reservedIdCheck s then .error .MatchesReservedIdPattern
  else .ok ⟨s⟩

def CollectionId.toStr (c : CollectionId) : Str := c.val

structure DocumentId where
  val : Str
deriving DecidableEq, Repr

/-- `TryFrom<String> for DocumentId` (`document_id.rs`). -/
def DocumentId.tryFrom (s : Str) : Except ErrorKind DocumentId :=
  if ¬(1 ≤ utf8Len s ∧ utf8Len s ≤ 1500) then .error .LengthOutOfBounds
  else if '/' ∈ s then .error .ContainsSlash
  else if s = str "." ∨ s = str ".." then .error .SinglePeriodOrDoublePeriods
  else if reservedIdCheck s then .error .MatchesReservedIdPattern
  else .ok ⟨s⟩

def DocumentId.toStr (d : DocumentId) : Str := d.val

/-! ## Relative paths (`collection_path.rs`, `document_path.rs`)

`CollectionPath` holds an optional parent `DocumentPath` and a
`CollectionId`; the optional parent is flattened into two constructors.
`DocumentPath` always holds a parent `CollectionPath` and a `DocumentId`. -/

mutual
inductive CollectionPath where
  | root (collection_id : CollectionId)
  | nested (document_path : DocumentPath) (collection_id : CollectionId)
deriving DecidableEq, Repr
inductive DocumentPath where
  | mk (collection_path : CollectionPath) (document_id : DocumentId)
deriving DecidableEq, Repr
end

/-- `CollectionPath::new(parent, collection_id)`. -/
def CollectionPath.new (parent : Option DocumentPath) (cid : CollectionId) : CollectionPath :=
  match parent with
  | none => .root cid
  | some dp => .nested dp cid

/-- `CollectionPath::collection_id`. -/
def CollectionPath.collection_id : CollectionPath → CollectionId
  | .root cid => cid
  | .nested _ cid => cid

/-- `CollectionPath::parent`. -/
def CollectionPath.parent : CollectionPath → Option DocumentPath
  | .root _ => none
  | .nested dp _ => some dp

/-- `DocumentPath::new(collection_path, document_id)`. -/
def DocumentPath.new (cp : CollectionPath) (did : DocumentId) : DocumentPath := .mk cp did

/-- `DocumentPath::parent`. -/
def DocumentPath.parent : DocumentPath → CollectionPath
  | .mk cp _ => cp

/-- `DocumentPath::document_id`. -/
def DocumentPath.document_id : DocumentPath → DocumentId
  | .mk _ did => did

mutual
/-- `Display for CollectionPath`. -/
def CollectionPath.toStr : CollectionPath → Str
  | .root cid => cid.val
  | .nested dp cid => dp.toStr ++ '/' :: cid.val
/-- `Display for DocumentPath`. -/
def DocumentPath.toStr : DocumentPath → Str
  | .mk cp did => cp.toStr ++ '/' :: did.val
end

mutual
/-- All identifiers stored in the path pass their validators: the invariant
every Rust instance has by construction. -/
def CollectionPath.validB : CollectionPath → Bool
  | .root cid => CollectionId.tryFrom cid.val == .ok cid
  | .nested dp cid => dp.validB && (CollectionId.tryFrom cid.val == .ok cid)
def DocumentPath.validB : DocumentPath → Bool
  | .mk cp did => cp.validB && (DocumentId.tryFrom did.val == .ok did)
end

def CollectionPath.Valid (cp : CollectionPath) : Prop := cp.validB = true
def DocumentPath.Valid (dp : DocumentPath) : Prop := dp.validB = true

mutual
/-- `TryFrom<String> for CollectionPath`, with explicit fuel standing in for
the well-founded recursion on the string (each recursive call is on the part
before the last `/`, which is strictly shorter); with `fuel > s.length` the
fuel never runs out. -/
def CollectionPath.tryFromF : Nat → Str → Except ErrorKind CollectionPath
  | 0, _ => .error .NotContainsSlash
  | fuel + 1, s =>
    match rsplitOnce '/' s with
    | some (dps, cids) =>
      match DocumentPath.tryFromF fuel dps with
      | .error e => .error e
      | .ok dp =>
        match CollectionId.tryFrom cids with
        | .error e => .error e
        | .ok cid => .ok (.nested dp cid)
    | none =>
      match CollectionId.tryFrom s with
      | .error e => .error e
      | .ok cid => .ok (.root cid)
/-- `TryFrom<&str> for DocumentPath`, with the same fuel convention. -/
def DocumentPath.tryFromF : Nat → Str → Except ErrorKind DocumentPath
  | 0, _ => .error .NotContainsSlash
  | fuel + 1, s =>
    match rsplitOnce '/' s with
    | some (cps, dids) =>
      match CollectionPath.tryFromF fuel cps with
      | .error e => .error e
      | .ok cp =>
        match DocumentId.tryFrom dids with
        | .error e => .error e
        | .ok did => .ok (.mk cp did)
    | none => .error .NotContainsSlash
end

def CollectionPath.tryFrom (s : Str) : Except ErrorKind CollectionPath :=
  CollectionPath.tryFromF (s.length + 1) s

def DocumentPath.tryFrom (s : Str) : Except ErrorKind DocumentPath :=
  DocumentPath.tryFromF (s.length + 1) s

/-- `CollectionPath.doc(document_id)` with an already-converted id. -/
def CollectionPath.doc (cp : CollectionPath) (did : DocumentId) : DocumentPath :=
  DocumentPath.new cp did

/-! ## `DocumentPath::collection`: decompose-and-rebuild re-rooting -/

/-- The `I` enum local to `DocumentPath::collection`. -/
inductive PathComponent where
  | C (cid : CollectionId)
  | D (did : DocumentId)
deriving DecidableEq, Repr

/-- The decompose loop of `DocumentPath::collection`: the argument's
identifiers from leaf to root. -/
def CollectionPath.components : CollectionPath → List PathComponent
  | .root cid => [.C cid]
  | .nested (.mk cp did) cid => .C cid :: .D did :: components cp

/-- The `P` enum local to `DocumentPath::collection`. -/
inductive PathAcc where
  | C (cp : CollectionPath)
  | D (dp : DocumentPath)
deriving DecidableEq, Repr

/-- One iteration of the rebuild loop; `none` stands for the `unreachable!`
arms. -/
def rebuildStep (acc : PathAcc) (comp : PathComponent) : Option PathAcc :=
  match acc, comp with
  | .C _, .C _ => none
  | .D _, .D _ => none
  | .C c, .D d => some (.D (DocumentPath.new c d))
  | .D d, .C c => some (.C (CollectionPath.new (some d) c))

/-- The rebuild loop over the reversed component list. -/
def rebuildAll : PathAcc → List PathComponent → Option PathAcc
  | acc, [] => some acc
  | acc, comp :: rest =>
    match rebuildStep acc comp with
    | none => none
    | some acc2 => rebuildAll acc2 rest

/-- `DocumentPath::collection` applied to an already-converted
`CollectionPath` argument; `none` stands for reaching an `unreachable!`. -/
def DocumentPath.collectionP (self : DocumentPath) (cp : CollectionPath) :
    Option CollectionPath :=
  match rebuildAll (.D self) cp.components.reverse with
  | some (.C c) => some c
  | some (.D _) => none
  | none => none

mutual
/-- The structural description of re-rooting: hang the whole chain of `cp`
below the document path `d` (used to state what `collectionP` computes). -/
def rerootC (d : DocumentPath) : CollectionPath → CollectionPath
  | .root cid => .nested d cid
  | .nested dp cid => .nested (rerootD d dp) cid
def rerootD (d : DocumentPath) : DocumentPath → DocumentPath
  | .mk cp did => .mk (rerootC d cp) did
end

/-! ## Fully-qualified names (`database_name.rs`, `root_document_name.rs`,
`collection_name.rs`, `document_name.rs`) -/

structure DatabaseName where
  database_id : DatabaseId
  project_id : ProjectId
deriving DecidableEq, Repr

/-- `DatabaseName::new(project_id, database_id)`. -/
def DatabaseName.new (pid : ProjectId) (did : DatabaseId) : DatabaseName := ⟨did, pid⟩

/-- `Display for DatabaseName`: `projects/{project_id}/databases/{database_id}`. -/
def DatabaseName.toStr (n : DatabaseName) : Str :=
  str "projects/" ++ n.project_id.val ++ str "/databases/" ++ n.database_id.val

/-- `TryFrom<&str> for DatabaseName`. -/
def DatabaseName.tryFrom (s : Str) : Except NameErr DatabaseName :=
  if ¬(1 ≤ utf8Len s ∧ utf8Len s ≤ 6144) then .error (.kind .LengthOutOfBounds)
  else
    match splitSep '/' s with
    | [p0, p1, p2, p3] =>
      if ¬(p0 = str "projects" ∧ p2 = str "databases") then .error (.kind .InvalidName)
      else
        match ProjectId.tryFrom p1 with
        | .error e => .error (.pid e)
        | .ok project_id =>
          match DatabaseId.tryFrom p3 with
          | .error e => .error (.kind e)
          | .ok database_id => .ok ⟨database_id, project_id⟩
    | _ => .error (.kind .InvalidNumberOfPathComponents)

def DatabaseName.Valid (n : DatabaseName) : Prop :=
  ProjectId.tryFromP n.project_id.val = some (.ok n.project_id) ∧
    DatabaseId.tryFromP n.database_id.val = some (.ok n.database_id)

structure RootDocumentName where
  database_name : DatabaseName
deriving DecidableEq, Repr

/-- `RootDocumentName::new(database_name)`. -/
def RootDocumentName.new (dn : DatabaseName) : RootDocumentName := ⟨dn⟩

/-- `Display for RootDocumentName`: `{database_name}/documents`. -/
def RootDocumentName.toStr (n : RootDocumentName) : Str :=
  n.database_name.toStr ++ str "/documents"

/-- `TryFrom<&str> for RootDocumentName`. -/
def RootDocumentName.tryFrom (s : Str) : Except NameErr RootDocumentName :=
  if ¬(1 ≤ utf8Len s ∧ utf8Len s ≤ 6144) then .error (.kind .LengthOutOfBounds)
  else
    match splitSep '/' s with
    | [p0, p1, p2, p3, p4] =>
      if ¬(p0 = str "projects" ∧ p2 = str "databases" ∧ p4 = str "documents") then
        .error (.kind .InvalidName)
      else
        match ProjectId.tryFrom p1 with
        | .error e => .error (.pid e)
        | .ok project_id =>
          match DatabaseId.tryFrom p3 with
          | .error e => .error (.kind e)
          | .ok database_id => .ok ⟨DatabaseName.new project_id database_id⟩
    | _ => .error (.kind .InvalidNumberOfPathComponents)

def RootDocumentName.Valid (n : RootDocumentName) : Prop := n.database_name.Valid

structure CollectionName where
  collection_path : CollectionPath
  root_document_name : RootDocumentName
deriving DecidableEq, Repr

/-- `CollectionName::new(root_document_name, collection_path)`. -/
def CollectionName.new (root : RootDocumentName) (cp : CollectionPath) : CollectionName :=
  ⟨cp, root⟩

/-- `Display for CollectionName`: `{root_document_name}/{collection_path}`. -/
def CollectionName.toStr (n : CollectionName) : Str :=
  n.root_document_name.toStr ++ '/' :: n.collection_path.toStr

/-- `TryFrom<&str> for CollectionName`. -/
def CollectionName.tryFrom (s : Str) : Except NameErr CollectionName :=
  if ¬(1 ≤ utf8Len s ∧ utf8Len s ≤ 6144) then .error (.kind .LengthOutOfBounds)
  else if (splitSep '/' s).length < 5 + 1 ∨ ((splitSep '/' s).length - 5) % 2 = 0 then
    .error (.kind .InvalidNumberOfPathComponents)
  else
    match CollectionPath.tryFrom (joinSep '/' ((splitSep '/' s).drop 5)) with
    | .error e => .error (.kind e)
    | .ok collection_path =>
      match RootDocumentName.tryFrom (joinSep '/' ((splitSep '/' s).take 5)) with
      | .error e => .error e
      | .ok root_document_name => .ok ⟨collection_path, root_document_name⟩

def CollectionName.Valid (n : CollectionName) : Prop :=
  n.root_document_name.Valid ∧ n.collection_path.Valid

structure DocumentName where
  document_path : DocumentPath
  root_document_name : RootDocumentName
deriving DecidableEq, Repr

/-- `Display for DocumentName`: `{root_document_name}/{document_path}`. -/
def DocumentName.toStr (n : DocumentName) : Str :=
  n.root_document_name.toStr ++ '/' :: n.document_path.toStr

/-- `TryFrom<&str> for DocumentName`. -/
def DocumentName.tryFrom (s : Str) : Except NameErr DocumentName :=
  if ¬(1 ≤ utf8Len s ∧ utf8Len s ≤ 6144) then .error (.kind .LengthOutOfBounds)
  else if (splitSep '/' s).length < 5 + 2 ∨ ((splitSep '/' s).length - 5) % 2 ≠ 0 then
    .error (.kind .InvalidNumberOfPathComponents)
  else
    match RootDocumentName.tryFrom (joinSep '/' ((splitSep '/' s).take 5)) with
    | .error e => .error e
    | .ok root_document_name =>
      match DocumentPath.tryFrom (joinSep '/' ((splitSep '/' s).drop 5)) with
      | .error e => .error (.kind e)
      | .ok document_path => .ok ⟨document_path, root_document_name⟩

def DocumentName.Valid (n : DocumentName) : Prop :=
  n.root_document_name.Valid ∧ n.document_path.Valid

/-- Modelled from the spec: the claim C8 compares the implemented reserved-id
check with "s matches the regular expression `__.*__`", read as the usual
full-string match: `s` is `__`, then anything, then `__`. -/
def MatchesReservedRegex (s : Str) : Prop :=
  ∃ t : Str, s = str "__" ++ t ++ str "__"

/-- A concrete `CollectionName` built from validated components whose display
string exceeds 6144 bytes: root `projects/xxxxxx/databases/(default)/documents`
plus five path segments of 1500 `x`s each. -/
def oversizedCollectionName : CollectionName :=
  ⟨.nested (.mk (.nested (.mk (.root ⟨List.replicate 1500 'x'⟩) ⟨List.replicate 1500 'x'⟩)
        ⟨List.replicate 1500 'x'⟩) ⟨List.replicate 1500 'x'⟩) ⟨List.replicate 1500 'x'⟩,
    ⟨⟨⟨str "(default)"⟩, ⟨str "xxxxxx"⟩⟩⟩⟩

/-! ## Helper lemmas: byte lengths, prefixes, splitting and joining -/

theorem utf8Len_append (a b : Str) : utf8Len (a ++ b) = utf8Len a + utf8Len b := by
  simp [utf8Len]

theorem utf8Len_cons (c : Char) (s : Str) : utf8Len (c :: s) = c.utf8Size + utf8Len s := by
  simp [utf8Len]

theorem one_le_utf8Len {s : Str} (h : s ≠ []) : 1 ≤ utf8Len s := by
  cases s with
  | nil => exact absurd rfl h
  | cons c cs =>
    have := Char.utf8Size_pos c
    simp [utf8Len_cons]
    omega

theorem eq_nil_of_utf8Len_eq_zero {s : Str} (h : utf8Len s = 0) : s = [] := by
  by_contra hne
  have := one_le_utf8Len hne
  omega

theorem utf8Len_replicate (n : Nat) (c : Char) :
    utf8Len (List.replicate n c) = n * c.utf8Size := by
  induction n with
  | zero => simp [utf8Len]
  | succ n ih => rw [List.replicate_succ, utf8Len_cons, ih, Nat.succ_mul]; omega

theorem isPfx_iff : ∀ (p s : Str), isPfx p s = true ↔ ∃ t, s = p ++ t
  | [], s => by simp [isPfx]
  | p :: ps, [] => by
    constructor
    · intro h; simp [isPfx] at h
    · rintro ⟨t, ht⟩; simp at ht
  | p :: ps, c :: cs => by
    rw [isPfx]
    simp only [Bool.and_eq_true, beq_iff_eq, isPfx_iff ps cs]
    constructor
    · rintro ⟨rfl, t, rfl⟩
      exact ⟨t, rfl⟩
    · rintro ⟨t, ht⟩
      simp only [List.cons_append, List.cons.injEq] at ht
      exact ⟨ht.1.symm, t, ht.2⟩

theorem isSfx_iff (p s : Str) : isSfx p s = true ↔ ∃ t, s = t ++ p := by
  rw [isSfx, isPfx_iff]
  constructor
  · rintro ⟨t, ht⟩
    refine ⟨t.reverse, ?_⟩
    have := congrArg List.reverse ht
    simpa using this
  · rintro ⟨t, rfl⟩
    exact ⟨t.reverse, by simp⟩

theorem rsplit_none {sep : Char} : ∀ {s : Str}, rsplitOnce sep s = none ↔ sep ∉ s := by
  intro s
  induction s with
  | nil => simp [rsplitOnce]
  | cons c cs ih =>
    rw [rsplitOnce]
    cases hr : rsplitOnce sep cs with
    | some p =>
      simp only [hr]
      constructor
      · intro h; simp at h
      · intro h
        have hcs : sep ∉ cs := fun hm => h (List.mem_cons_of_mem _ hm)
        rw [ih.mpr hcs] at hr
        simp at hr
    | none =>
      simp only [hr]
      have hcs : sep ∉ cs := ih.mp hr
      by_cases hc : c = sep
      · subst hc
        simp
      · rw [if_neg hc]
        simp only [List.mem_cons, not_or]
        constructor
        · intro _
          exact ⟨fun h => hc h.symm, hcs⟩
        · intro _
          trivial

theorem rsplit_some {sep : Char} :
    ∀ {s a b : Str}, rsplitOnce sep s = some (a, b) → s = a ++ sep :: b ∧ sep ∉ b := by
  intro s
  induction s with
  | nil => intro a b h; simp [rsplitOnce] at h
  | cons c cs ih =>
    intro a b h
    rw [rsplitOnce] at h
    cases hr : rsplitOnce sep cs with
    | some p =>
      obtain ⟨a', b'⟩ := p
      rw [hr] at h
      simp only [Option.some.injEq, Prod.mk.injEq] at h
      obtain ⟨ha, hb⟩ := h
      subst ha
      subst hb
      obtain ⟨hs, hnb⟩ := ih hr
      exact ⟨by rw [hs, List.cons_append], hnb⟩
    | none =>
      rw [hr] at h
      by_cases hc : c = sep
      · rw [if_pos hc] at h
        simp only [Option.some.injEq, Prod.mk.injEq] at h
        obtain ⟨ha, hb⟩ := h
        subst ha
        subst hb
        subst hc
        exact ⟨rfl, rsplit_none.mp hr⟩
      · rw [if_neg hc] at h
        simp at h

theorem rsplit_append {sep : Char} {b : Str} (hb : sep ∉ b) :
    ∀ a : Str, rsplitOnce sep (a ++ sep :: b) = some (a, b) := by
  intro a
  induction a with
  | nil =>
    rw [List.nil_append, rsplitOnce, rsplit_none.mpr hb]
    simp
  | cons c cs ih =>
    rw [List.cons_append, rsplitOnce, ih]

theorem consHead_ne_nil (c : Char) (l : List Str) : consHead c l ≠ [] := by
  cases l <;> simp [consHead]

theorem splitSep_ne_nil (sep : Char) : ∀ s : Str, splitSep sep s ≠ []
  | [] => by simp [splitSep]
  | c :: cs => by
    rw [splitSep]
    by_cases hc : c = sep
    · simp [hc]
    · simp [hc, consHead_ne_nil]

theorem splitSep_no_sep {sep : Char} : ∀ {s : Str}, sep ∉ s → splitSep sep s = [s]
  | [], _ => rfl
  | c :: cs, h => by
    have hc : ¬(c = sep) := fun e => h (by rw [← e]; exact List.mem_cons_self c cs)
    have hcs : sep ∉ cs := fun m => h (List.mem_cons_of_mem _ m)
    rw [splitSep, if_neg hc, splitSep_no_sep hcs]
    rfl

theorem splitSep_append (sep : Char) :
    ∀ (a b : Str), splitSep sep (a ++ sep :: b) = splitSep sep a ++ splitSep sep b
  | [], b => by
    simp [splitSep]
  | x :: a, b => by
    have ih := splitSep_append sep a b
    rw [List.cons_append, splitSep, ih, splitSep]
    by_cases hx : x = sep
    · rw [if_pos hx, if_pos hx, List.cons_append]
    · rw [if_neg hx, if_neg hx]
      obtain ⟨h, t, hht⟩ := List.exists_cons_of_ne_nil (splitSep_ne_nil sep a)
      rw [hht, List.cons_append, consHead, consHead, List.cons_append]

theorem joinSep_cons2 (sep : Char) (p h : Str) (t : List Str) :
    joinSep sep (p :: h :: t) = p ++ sep :: joinSep sep (h :: t) := rfl

theorem joinSep_cons_ne (sep : Char) (p : Str) {L : List Str} (hL : L ≠ []) :
    joinSep sep (p :: L) = p ++ sep :: joinSep sep L := by
  obtain ⟨h, t, rfl⟩ := List.exists_cons_of_ne_nil hL
  rfl

theorem joinSep_splitSep (sep : Char) : ∀ s : Str, joinSep sep (splitSep sep s) = s
  | [] => rfl
  | c :: cs => by
    have ih := joinSep_splitSep sep cs
    obtain ⟨h, t, hht⟩ := List.exists_cons_of_ne_nil (splitSep_ne_nil sep cs)
    rw [splitSep]
    by_cases hc : c = sep
    · rw [if_pos hc, joinSep_cons_ne sep [] (splitSep_ne_nil sep cs), List.nil_append, ih, hc]
    · rw [if_neg hc, hht, consHead]
      cases t with
      | nil =>
        have hcs : h = cs := by
          rw [hht] at ih
          exact ih
        rw [show joinSep sep [c :: h] = c :: h from rfl, hcs]
      | cons x xs =>
        rw [hht] at ih
        rw [joinSep_cons2] at ih
        rw [joinSep_cons2, List.cons_append, ih]

theorem joinSep_append (sep : Char) :
    ∀ (ps qs : List Str), ps ≠ [] → qs ≠ [] →
      joinSep sep (ps ++ qs) = joinSep sep ps ++ sep :: joinSep sep qs
  | [], _, hp, _ => absurd rfl hp
  | [p], qs, _, hq => by
    rw [List.cons_append, List.nil_append, joinSep_cons_ne sep p hq]
    rfl
  | p :: p2 :: pt, qs, _, hq => by
    have ih := joinSep_append sep (p2 :: pt) qs (by simp) hq
    rw [List.cons_append, joinSep_cons_ne sep p (by simp : (p2 :: pt) ++ qs ≠ []), ih,
      joinSep_cons_ne sep p (by simp : p2 :: pt ≠ ([] : List Str)), List.append_assoc,
      List.cons_append]

/-! ## Facts about the identifier validators -/

theorem idChar_no_slash {s : Str} (h : s.all idChar = true) : '/' ∉ s := by
  intro hmem
  have := List.all_eq_true.mp h '/' hmem
  simp [idChar] at this

theorem collectionId_ok_facts {s : Str} {c : CollectionId}
    (h : CollectionId.tryFrom s = .ok c) : c.val = s ∧ '/' ∉ s ∧ s ≠ [] := by
  unfold CollectionId.tryFrom at h
  split at h
  · simp at h
  · next hlen =>
    split at h
    · simp at h
    · next hslash =>
      split at h
      · simp at h
      · split at h
        · simp at h
        · simp only [Except.ok.injEq] at h
          subst h
          obtain ⟨h1, _⟩ := not_not.mp hlen
          exact ⟨rfl, hslash, fun he => by subst he; simp [utf8Len] at h1⟩

theorem collectionId_ok_of {s : Str} (h1 : 1 ≤ utf8Len s) (h2 : utf8Len s ≤ 1500)
    (h3 : '/' ∉ s) (h4 : s ≠ str ".") (h5 : s ≠ str "..")
    (h6 : reservedIdCheck s = false) : CollectionId.tryFrom s = .ok ⟨s⟩ := by
  unfold CollectionId.tryFrom
  rw [if_neg (not_not_intro ⟨h1, h2⟩), if_neg h3, if_neg (not_or.mpr ⟨h4, h5⟩),
    if_neg (by simp [h6])]

theorem documentId_ok_facts {s : Str} {d : DocumentId}
    (h : DocumentId.tryFrom s = .ok d) : d.val = s ∧ '/' ∉ s ∧ s ≠ [] := by
  unfold DocumentId.tryFrom at h
  split at h
  · simp at h
  · next hlen =>
    split at h
    · simp at h
    · next hslash =>
      split at h
      · simp at h
      · split at h
        · simp at h
        · simp only [Except.ok.injEq] at h
          subst h
          obtain ⟨h1, _⟩ := not_not.mp hlen
          exact ⟨rfl, hslash, fun he => by subst he; simp [utf8Len] at h1⟩

theorem documentId_ok_of {s : Str} (h1 : 1 ≤ utf8Len s) (h2 : utf8Len s ≤ 1500)
    (h3 : '/' ∉ s) (h4 : s ≠ str ".") (h5 : s ≠ str "..")
    (h6 : reservedIdCheck s = false) : DocumentId.tryFrom s = .ok ⟨s⟩ := by
  unfold DocumentId.tryFrom
  rw [if_neg (not_not_intro ⟨h1, h2⟩), if_neg h3, if_neg (not_or.mpr ⟨h4, h5⟩),
    if_neg (by simp [h6])]

theorem projectId_ok_facts {s : Str} {p : ProjectId}
    (h : ProjectId.tryFromP s = some (.ok p)) :
    p.val = s ∧ 6 ≤ utf8Len s ∧ utf8Len s ≤ 30 ∧ '/' ∉ s ∧ s ≠ [] := by
  unfold ProjectId.tryFromP at h
  split at h
  · simp at h
  next hlen =>
    split at h
    · simp at h
    next hchars =>
      split at h
      · simp at h
      next hemp =>
        split at h
        · simp at h
        split at h
        · simp at h
        split at h
        · simp at h
        simp only [Option.some.injEq, Except.ok.injEq] at h
        subst h
        obtain ⟨hl1, hl2⟩ := not_not.mp hlen
        exact ⟨rfl, hl1, hl2, idChar_no_slash (not_not.mp hchars),
          fun he => hemp (by rw [he]; rfl)⟩

theorem databaseId_ok_facts {s : Str} {d : DatabaseId}
    (h : DatabaseId.tryFromP s = some (.ok d)) :
    d.val = s ∧ 1 ≤ utf8Len s ∧ utf8Len s ≤ 63 ∧ '/' ∉ s ∧ s ≠ [] := by
  unfold DatabaseId.tryFromP at h
  split at h
  · next hdef =>
    simp only [Option.some.injEq, Except.ok.injEq] at h
    subst h
    subst hdef
    refine ⟨rfl, by decide, by decide, by decide, by decide⟩
  next hdef =>
    split at h
    · simp at h
    next hlen =>
      split at h
      · simp at h
      next hchars =>
        split at h
        · simp at h
        next hemp =>
          split at h
          · simp at h
          split at h
          · simp at h
          simp only [Option.some.injEq, Except.ok.injEq] at h
          subst h
          obtain ⟨hl1, hl2⟩ := not_not.mp hlen
          exact ⟨rfl, by omega, hl2, idChar_no_slash (not_not.mp hchars),
            fun he => hemp (by rw [he]; rfl)⟩

/-! ## Relative-path round trips -/

theorem CollectionPath.valid_root {cid : CollectionId} :
    (CollectionPath.root cid).Valid ↔ CollectionId.tryFrom cid.val = .ok cid := by
  simp [CollectionPath.Valid, CollectionPath.validB]

theorem CollectionPath.valid_nested {dp : DocumentPath} {cid : CollectionId} :
    (CollectionPath.nested dp cid).Valid ↔
      dp.Valid ∧ CollectionId.tryFrom cid.val = .ok cid := by
  simp [CollectionPath.Valid, DocumentPath.Valid, CollectionPath.validB, Bool.and_eq_true]

theorem DocumentPath.valid_mk {cp : CollectionPath} {did : DocumentId} :
    (DocumentPath.mk cp did).Valid ↔
      cp.Valid ∧ DocumentId.tryFrom did.val = .ok did := by
  simp [CollectionPath.Valid, DocumentPath.Valid, DocumentPath.validB, Bool.and_eq_true]

mutual
theorem collectionPath_toStr_tryFromF :
    ∀ (fuel : Nat) (s : Str) (cp : CollectionPath), s.length < fuel →
      CollectionPath.tryFromF fuel s = .ok cp → cp.toStr = s
  | 0, _, _, hlen, _ => absurd hlen (Nat.not_lt_zero _)
  | fuel + 1, s, cp, hlen, h => by
    rw [CollectionPath.tryFromF] at h
    split at h
    · next dps cids hsp =>
      split at h
      · simp at h
      next dp hdp =>
        split at h
        · simp at h
        next cid hcid =>
          simp only [Except.ok.injEq] at h
          subst h
          obtain ⟨hs, hnb⟩ := rsplit_some hsp
          have hlt : dps.length < fuel := by
            rw [hs, List.length_append] at hlen
            simp at hlen
            omega
          have ih := documentPath_toStr_tryFromF fuel dps dp hlt hdp
          obtain ⟨hcv, _, _⟩ := collectionId_ok_facts hcid
          rw [CollectionPath.toStr, ih, hcv]
          exact hs.symm
    · next hsp =>
      split at h
      · simp at h
      next cid hcid =>
        simp only [Except.ok.injEq] at h
        subst h
        obtain ⟨hcv, _, _⟩ := collectionId_ok_facts hcid
        rw [CollectionPath.toStr, hcv]
theorem documentPath_toStr_tryFromF :
    ∀ (fuel : Nat) (s : Str) (dp : DocumentPath), s.length < fuel →
      DocumentPath.tryFromF fuel s = .ok dp → dp.toStr = s
  | 0, _, _, hlen, _ => absurd hlen (Nat.not_lt_zero _)
  | fuel + 1, s, dp, hlen, h => by
    rw [DocumentPath.tryFromF] at h
    split at h
    · next cps dids hsp =>
      split at h
      · simp at h
      next cp hcp =>
        split at h
        · simp at h
        next did hdid =>
          simp only [Except.ok.injEq] at h
          subst h
          obtain ⟨hs, hnb⟩ := rsplit_some hsp
          have hlt : cps.length < fuel := by
            rw [hs, List.length_append] at hlen
            simp at hlen
            omega
          have ih := collectionPath_toStr_tryFromF fuel cps cp hlt hcp
          obtain ⟨hdv, _, _⟩ := documentId_ok_facts hdid
          rw [DocumentPath.toStr, ih, hdv]
          exact hs.symm
    · next hsp => simp at h
end

/-- `C1` instance for `CollectionPath`: parse-then-format round trip. -/
theorem collectionPath_parse_format {s : Str} {cp : CollectionPath}
    (h : CollectionPath.tryFrom s = .ok cp) : cp.toStr = s :=
  collectionPath_toStr_tryFromF (s.length + 1) s cp (Nat.lt_succ_self _) h

theorem documentPath_parse_format {s : Str} {dp : DocumentPath}
    (h : DocumentPath.tryFrom s = .ok dp) : dp.toStr = s :=
  documentPath_toStr_tryFromF (s.length + 1) s dp (Nat.lt_succ_self _) h

mutual
theorem collectionPath_tryFromF_of_valid :
    ∀ (cp : CollectionPath), cp.Valid → ∀ (fuel : Nat), cp.toStr.length < fuel →
      CollectionPath.tryFromF fuel cp.toStr = .ok cp
  | _, _, 0, hlen => absurd hlen (Nat.not_lt_zero _)
  | .root cid, hv, fuel + 1, _ => by
    have hcid : CollectionId.tryFrom cid.val = .ok cid := CollectionPath.valid_root.mp hv
    obtain ⟨_, hnb, _⟩ := collectionId_ok_facts hcid
    have hsplit : rsplitOnce '/' (CollectionPath.root cid).toStr = none := by
      rw [CollectionPath.toStr]
      exact rsplit_none.mpr hnb
    rw [CollectionPath.tryFromF]
    split
    · next dps cids hsp =>
      rw [hsplit] at hsp
      simp at hsp
    · next hsp =>
      split
      · next e he =>
        rw [CollectionPath.toStr, hcid] at he
        simp at he
      next cid' hcid' =>
        rw [CollectionPath.toStr, hcid] at hcid'
        simp only [Except.ok.injEq] at hcid'
        rw [hcid']
  | .nested dp cid, hv, fuel + 1, hlen => by
    obtain ⟨hdv, hcid⟩ := CollectionPath.valid_nested.mp hv
    obtain ⟨_, hnb, _⟩ := collectionId_ok_facts hcid
    have hsplit : rsplitOnce '/' (CollectionPath.nested dp cid).toStr =
        some (dp.toStr, cid.val) := by
      rw [CollectionPath.toStr]
      exact rsplit_append hnb _
    have hlt : dp.toStr.length < fuel := by
      rw [CollectionPath.toStr, List.length_append] at hlen
      simp at hlen
      omega
    have ih := documentPath_tryFromF_of_valid dp hdv fuel hlt
    rw [CollectionPath.tryFromF]
    split
    · next dps cids hsp =>
      rw [hsplit] at hsp
      simp only [Option.some.injEq, Prod.mk.injEq] at hsp
      obtain ⟨h1, h2⟩ := hsp
      subst h1
      subst h2
      split
      · next e he =>
        rw [ih] at he
        simp at he
      next dp' hdp' =>
        rw [ih] at hdp'
        simp only [Except.ok.injEq] at hdp'
        subst hdp'
        split
        · next e he =>
          rw [hcid] at he
          simp at he
        next cid' hcid' =>
          rw [hcid] at hcid'
          simp only [Except.ok.injEq] at hcid'
          rw [hcid']
    · next hsp =>
      rw [hsplit] at hsp
      simp at hsp
theorem documentPath_tryFromF_of_valid :
    ∀ (dp : DocumentPath), dp.Valid → ∀ (fuel : Nat), dp.toStr.length < fuel →
      DocumentPath.tryFromF fuel dp.toStr = .ok dp
  | _, _, 0, hlen => absurd hlen (Nat.not_lt_zero _)
  | .mk cp did, hv, fuel + 1, hlen => by
    obtain ⟨hcv, hdid⟩ := DocumentPath.valid_mk.mp hv
    obtain ⟨_, hnb, _⟩ := documentId_ok_facts hdid
    have hsplit : rsplitOnce '/' (DocumentPath.mk cp did).toStr =
        some (cp.toStr, did.val) := by
      rw [DocumentPath.toStr]
      exact rsplit_append hnb _
    have hlt : cp.toStr.length < fuel := by
      rw [DocumentPath.toStr, List.length_append] at hlen
      simp at hlen
      omega
    have ih := collectionPath_tryFromF_of_valid cp hcv fuel hlt
    rw [DocumentPath.tryFromF]
    split
    · next cps dids hsp =>
      rw [hsplit] at hsp
      simp only [Option.some.injEq, Prod.mk.injEq] at hsp
      obtain ⟨h1, h2⟩ := hsp
      subst h1
      subst h2
      split
      · next e he =>
        rw [ih] at he
        simp at he
      next cp' hcp' =>
        rw [ih] at hcp'
        simp only [Except.ok.injEq] at hcp'
        subst hcp'
        split
        · next e he =>
          rw [hdid] at he
          simp at he
        next did' hdid' =>
          rw [hdid] at hdid'
          simp only [Except.ok.injEq] at hdid'
          rw [hdid']
    · next hsp =>
      rw [hsplit] at hsp
      simp at hsp
end

/-- `C2` instance for `CollectionPath`: format-then-parse round trip. -/
theorem collectionPath_format_parse {cp : CollectionPath} (hv : cp.Valid) :
    CollectionPath.tryFrom cp.toStr = .ok cp :=
  collectionPath_tryFromF_of_valid cp hv _ (Nat.lt_succ_self _)

theorem documentPath_format_parse {dp : DocumentPath} (hv : dp.Valid) :
    DocumentPath.tryFrom dp.toStr = .ok dp :=
  documentPath_tryFromF_of_valid dp hv _ (Nat.lt_succ_self _)

mutual
theorem CollectionPath.parts_odd :
    ∀ (cp : CollectionPath), cp.Valid → (splitSep '/' cp.toStr).length % 2 = 1
  | .root cid, hv => by
    have hcid := CollectionPath.valid_root.mp hv
    obtain ⟨_, hnb, _⟩ := collectionId_ok_facts hcid
    rw [CollectionPath.toStr, splitSep_no_sep hnb]
    rfl
  | .nested dp cid, hv => by
    obtain ⟨hdv, hcid⟩ := CollectionPath.valid_nested.mp hv
    obtain ⟨_, hnb, _⟩ := collectionId_ok_facts hcid
    have ih := DocumentPath.parts_even dp hdv
    rw [CollectionPath.toStr, splitSep_append, splitSep_no_sep hnb, List.length_append]
    simp only [List.length_singleton]
    omega
theorem DocumentPath.parts_even :
    ∀ (dp : DocumentPath), dp.Valid →
      (splitSep '/' dp.toStr).length % 2 = 0 ∧ 2 ≤ (splitSep '/' dp.toStr).length
  | .mk cp did, hv => by
    obtain ⟨hcv, hdid⟩ := DocumentPath.valid_mk.mp hv
    obtain ⟨_, hnb, _⟩ := documentId_ok_facts hdid
    have ih := CollectionPath.parts_odd cp hcv
    have hpos : 0 < (splitSep '/' cp.toStr).length :=
      List.length_pos.mpr (splitSep_ne_nil '/' cp.toStr)
    rw [DocumentPath.toStr, splitSep_append, splitSep_no_sep hnb, List.length_append]
    simp only [List.length_singleton]
    omega
end

/-! ## The decompose-and-rebuild algorithm of `DocumentPath::collection` -/

theorem rebuildAll_append :
    ∀ (xs ys : List PathComponent) (acc : PathAcc),
      rebuildAll acc (xs ++ ys) = (rebuildAll acc xs).bind (fun a => rebuildAll a ys)
  | [], ys, acc => by simp [rebuildAll]
  | x :: xs, ys, acc => by
    rw [List.cons_append, rebuildAll, rebuildAll]
    cases rebuildStep acc x with
    | none => simp
    | some acc2 => simp [rebuildAll_append xs ys acc2]

theorem rebuildAll_components (d : DocumentPath) :
    ∀ (cp : CollectionPath),
      rebuildAll (.D d) cp.components.reverse = some (.C (rerootC d cp))
  | .root cid => by
    simp [CollectionPath.components, rebuildAll, rebuildStep, CollectionPath.new, rerootC]
  | .nested (.mk cp did) cid => by
    have ih := rebuildAll_components d cp
    rw [CollectionPath.components, List.reverse_cons, List.reverse_cons,
      rebuildAll_append, rebuildAll_append, ih]
    simp [rebuildAll, rebuildStep, rerootC, rerootD, DocumentPath.new, CollectionPath.new]

/-- `DocumentPath::collection` never reaches its `unreachable!` arms and
computes exactly the structural re-rooting. -/
theorem DocumentPath.collectionP_eq (d : DocumentPath) (cp : CollectionPath) :
    DocumentPath.collectionP d cp = some (rerootC d cp) := by
  unfold DocumentPath.collectionP
  split
  · next c heq =>
    rw [rebuildAll_components] at heq
    simp only [Option.some.injEq, PathAcc.C.injEq] at heq
    rw [heq]
  · next dp' heq =>
    rw [rebuildAll_components] at heq
    simp at heq
  · next heq =>
    rw [rebuildAll_components] at heq
    simp at heq

mutual
theorem rerootC_toStr (d : DocumentPath) :
    ∀ cp : CollectionPath, (rerootC d cp).toStr = d.toStr ++ '/' :: cp.toStr
  | .root cid => by
    rw [rerootC, CollectionPath.toStr, CollectionPath.toStr]
  | .nested dp cid => by
    have ih := rerootD_toStr d dp
    rw [rerootC, CollectionPath.toStr, ih, CollectionPath.toStr, List.append_assoc,
      List.cons_append]
theorem rerootD_toStr (d : DocumentPath) :
    ∀ dp : DocumentPath, (rerootD d dp).toStr = d.toStr ++ '/' :: dp.toStr
  | .mk cp did => by
    have ih := rerootC_toStr d cp
    rw [rerootD, DocumentPath.toStr, ih, DocumentPath.toStr, List.append_assoc,
      List.cons_append]
end

mutual
theorem rerootC_valid (d : DocumentPath) (hd : d.Valid) :
    ∀ cp : CollectionPath, cp.Valid → (rerootC d cp).Valid
  | .root cid, hv => by
    rw [rerootC]
    exact CollectionPath.valid_nested.mpr ⟨hd, CollectionPath.valid_root.mp hv⟩
  | .nested dp cid, hv => by
    obtain ⟨hdp, hcid⟩ := CollectionPath.valid_nested.mp hv
    rw [rerootC]
    exact CollectionPath.valid_nested.mpr ⟨rerootD_valid d hd dp hdp, hcid⟩
theorem rerootD_valid (d : DocumentPath) (hd : d.Valid) :
    ∀ dp : DocumentPath, dp.Valid → (rerootD d dp).Valid
  | .mk cp did, hv => by
    obtain ⟨hcp, hdid⟩ := DocumentPath.valid_mk.mp hv
    rw [rerootD]
    exact DocumentPath.valid_mk.mpr ⟨rerootC_valid d hd cp hcp, hdid⟩
end

/-! ## `DatabaseName` and `RootDocumentName` round trips -/

theorem projectId_ok_iff {s : Str} {p : ProjectId} :
    ProjectId.tryFrom s = .ok p ↔ ProjectId.tryFromP s = some (.ok p) := by
  unfold ProjectId.tryFrom
  cases h : ProjectId.tryFromP s with
  | none => simp
  | some r => cases r <;> simp

theorem databaseId_ok_iff {s : Str} {d : DatabaseId} :
    DatabaseId.tryFrom s = .ok d ↔ DatabaseId.tryFromP s = some (.ok d) := by
  unfold DatabaseId.tryFrom
  cases h : DatabaseId.tryFromP s with
  | none => simp
  | some r => cases r <;> simp

theorem databaseName_toStr_eq (n : DatabaseName) :
    n.toStr = str "projects" ++ '/' ::
      (n.project_id.val ++ '/' :: (str "databases" ++ '/' :: n.database_id.val)) := by
  rw [DatabaseName.toStr]
  simp only [List.append_assoc]
  rfl

theorem databaseName_splitSep_toStr (n : DatabaseName) (h1 : '/' ∉ n.project_id.val)
    (h2 : '/' ∉ n.database_id.val) :
    splitSep '/' n.toStr =
      [str "projects", n.project_id.val, str "databases", n.database_id.val] := by
  rw [databaseName_toStr_eq, splitSep_append, splitSep_append, splitSep_append,
    splitSep_no_sep (show ('/' : Char) ∉ str "projects" by decide),
    splitSep_no_sep h1,
    splitSep_no_sep (show ('/' : Char) ∉ str "databases" by decide),
    splitSep_no_sep h2]
  rfl

theorem databaseName_utf8Len_toStr {n : DatabaseName} (hv : n.Valid) :
    1 ≤ utf8Len n.toStr ∧ utf8Len n.toStr ≤ 113 := by
  obtain ⟨hp, hd⟩ := hv
  obtain ⟨_, _, hp2, _, _⟩ := projectId_ok_facts hp
  obtain ⟨_, _, hd2, _, _⟩ := databaseId_ok_facts hd
  rw [DatabaseName.toStr, utf8Len_append, utf8Len_append, utf8Len_append]
  have e1 : utf8Len (str "projects/") = 9 := by decide
  have e2 : utf8Len (str "/databases/") = 11 := by decide
  omega

theorem databaseName_format_parse {n : DatabaseName} (hv : n.Valid) :
    DatabaseName.tryFrom n.toStr = .ok n := by
  obtain ⟨hp, hd⟩ := hv
  obtain ⟨_, _, _, hpns, _⟩ := projectId_ok_facts hp
  obtain ⟨_, _, _, hdns, _⟩ := databaseId_ok_facts hd
  have hparts := databaseName_splitSep_toStr n hpns hdns
  have hpid : ProjectId.tryFrom n.project_id.val = .ok n.project_id :=
    projectId_ok_iff.mpr hp
  have hdid : DatabaseId.tryFrom n.database_id.val = .ok n.database_id :=
    databaseId_ok_iff.mpr hd
  unfold DatabaseName.tryFrom
  have hlen := databaseName_utf8Len_toStr ⟨hp, hd⟩
  rw [if_neg (not_not_intro ⟨hlen.1, by omega⟩)]
  split
  · next p0 p1 p2 p3 heq =>
    rw [hparts] at heq
    simp only [List.cons.injEq, and_true] at heq
    obtain ⟨h0, h1, h2, h3⟩ := heq
    subst h0
    subst h1
    subst h2
    subst h3
    rw [if_neg (not_not_intro ⟨rfl, rfl⟩)]
    split
    · next e he =>
      rw [hpid] at he
      simp at he
    next pid hpid' =>
      rw [hpid] at hpid'
      simp only [Except.ok.injEq] at hpid'
      subst hpid'
      split
      · next e he =>
        rw [hdid] at he
        simp at he
      next did hdid' =>
        rw [hdid] at hdid'
        simp only [Except.ok.injEq] at hdid'
        subst hdid'
        rfl
  · next heq =>
    exact absurd hparts (heq _ _ _ _)

theorem databaseName_parse_format {s : Str} {n : DatabaseName}
    (h : DatabaseName.tryFrom s = .ok n) : n.toStr = s := by
  unfold DatabaseName.tryFrom at h
  split at h
  · simp at h
  next hlen =>
    split at h
    · next p0 p1 p2 p3 heq =>
      split at h
      · simp at h
      next hlit =>
        obtain ⟨hl0, hl2⟩ := not_not.mp hlit
        split at h
        · simp at h
        next pid hpid =>
          split at h
          · simp at h
          next did hdid =>
            simp only [Except.ok.injEq] at h
            subst h
            obtain ⟨hpv, _, _, _, _⟩ := projectId_ok_facts (projectId_ok_iff.mp hpid)
            obtain ⟨hdv, _, _, _, _⟩ :=
              databaseId_ok_facts (databaseId_ok_iff.mp hdid)
            have hs : s = p0 ++ '/' :: (p1 ++ '/' :: (p2 ++ '/' :: p3)) := by
              rw [← joinSep_splitSep '/' s, heq]
              rfl
            rw [databaseName_toStr_eq]
            rw [show DatabaseName.project_id ⟨did, pid⟩ = pid from rfl,
              show DatabaseName.database_id ⟨did, pid⟩ = did from rfl, hpv, hdv, hs, hl0, hl2]
    · simp at h

theorem rootDocumentName_toStr_eq (n : RootDocumentName) :
    n.toStr = str "projects" ++ '/' ::
      (n.database_name.project_id.val ++ '/' :: (str "databases" ++ '/' ::
        (n.database_name.database_id.val ++ '/' :: str "documents"))) := by
  rw [RootDocumentName.toStr, DatabaseName.toStr]
  simp only [List.append_assoc]
  rfl

theorem rootDocumentName_splitSep_toStr (n : RootDocumentName)
    (h1 : '/' ∉ n.database_name.project_id.val)
    (h2 : '/' ∉ n.database_name.database_id.val) :
    splitSep '/' n.toStr =
      [str "projects", n.database_name.project_id.val, str "databases",
        n.database_name.database_id.val, str "documents"] := by
  rw [rootDocumentName_toStr_eq, splitSep_append, splitSep_append, splitSep_append,
    splitSep_append,
    splitSep_no_sep (show ('/' : Char) ∉ str "projects" by decide),
    splitSep_no_sep h1,
    splitSep_no_sep (show ('/' : Char) ∉ str "databases" by decide),
    splitSep_no_sep h2,
    splitSep_no_sep (show ('/' : Char) ∉ str "documents" by decide)]
  rfl

theorem rootDocumentName_utf8Len_toStr {n : RootDocumentName} (hv : n.Valid) :
    1 ≤ utf8Len n.toStr ∧ utf8Len n.toStr ≤ 123 := by
  have hdb := databaseName_utf8Len_toStr hv
  rw [RootDocumentName.toStr, utf8Len_append]
  have e1 : utf8Len (str "/documents") = 10 := by decide
  omega

theorem rootDocumentName_format_parse {n : RootDocumentName} (hv : n.Valid) :
    RootDocumentName.tryFrom n.toStr = .ok n := by
  obtain ⟨hp, hd⟩ := hv
  obtain ⟨_, _, _, hpns, _⟩ := projectId_ok_facts hp
  obtain ⟨_, _, _, hdns, _⟩ := databaseId_ok_facts hd
  have hparts := rootDocumentName_splitSep_toStr n hpns hdns
  have hpid : ProjectId.tryFrom n.database_name.project_id.val =
      .ok n.database_name.project_id := projectId_ok_iff.mpr hp
  have hdid : DatabaseId.tryFrom n.database_name.database_id.val =
      .ok n.database_name.database_id := databaseId_ok_iff.mpr hd
  unfold RootDocumentName.tryFrom
  have hlen := rootDocumentName_utf8Len_toStr ⟨hp, hd⟩
  rw [if_neg (not_not_intro ⟨hlen.1, by omega⟩)]
  split
  · next p0 p1 p2 p3 p4 heq =>
    rw [hparts] at heq
    simp only [List.cons.injEq, and_true] at heq
    obtain ⟨h0, h1, h2, h3, h4⟩ := heq
    subst h0
    subst h1
    subst h2
    subst h3
    subst h4
    rw [if_neg (not_not_intro ⟨rfl, rfl, rfl⟩)]
    split
    · next e he =>
      rw [hpid] at he
      simp at he
    next pid hpid' =>
      rw [hpid] at hpid'
      simp only [Except.ok.injEq] at hpid'
      subst hpid'
      split
      · next e he =>
        rw [hdid] at he
        simp at he
      next did hdid' =>
        rw [hdid] at hdid'
        simp only [Except.ok.injEq] at hdid'
        subst hdid'
        rfl
  · next heq =>
    exact absurd hparts (heq _ _ _ _ _)

theorem rootDocumentName_parse_format {s : Str} {n : RootDocumentName}
    (h : RootDocumentName.tryFrom s = .ok n) : n.toStr = s := by
  unfold RootDocumentName.tryFrom at h
  split at h
  · simp at h
  next hlen =>
    split at h
    · next p0 p1 p2 p3 p4 heq =>
      split at h
      · simp at h
      next hlit =>
        obtain ⟨hl0, hl2, hl4⟩ := not_not.mp hlit
        split at h
        · simp at h
        next pid hpid =>
          split at h
          · simp at h
          next did hdid =>
            simp only [Except.ok.injEq] at h
            subst h
            obtain ⟨hpv, _, _, _, _⟩ := projectId_ok_facts (projectId_ok_iff.mp hpid)
            obtain ⟨hdv, _, _, _, _⟩ :=
              databaseId_ok_facts (databaseId_ok_iff.mp hdid)
            have hs : s = p0 ++ '/' :: (p1 ++ '/' :: (p2 ++ '/' :: (p3 ++ '/' :: p4))) := by
              rw [← joinSep_splitSep '/' s, heq]
              rfl
            rw [rootDocumentName_toStr_eq]
            rw [show (RootDocumentName.mk (DatabaseName.new pid did)).database_name.project_id
                = pid from rfl,
              show (RootDocumentName.mk (DatabaseName.new pid did)).database_name.database_id
                = did from rfl, hpv, hdv, hs, hl0, hl2, hl4]
    · simp at h

/-! ## `CollectionName` and `DocumentName` round trips -/

theorem collectionName_format_parse {n : CollectionName} (hv : n.Valid)
    (hlen : utf8Len n.toStr ≤ 6144) : CollectionName.tryFrom n.toStr = .ok n := by
  unfold CollectionName.Valid at hv
  obtain ⟨hroot, hpath⟩ := hv
  have hdb : n.root_document_name.database_name.Valid := hroot
  unfold DatabaseName.Valid at hdb
  obtain ⟨hp, hd⟩ := hdb
  obtain ⟨_, _, _, hpns, _⟩ := projectId_ok_facts hp
  obtain ⟨_, _, _, hdns, _⟩ := databaseId_ok_facts hd
  have hrootparts := rootDocumentName_splitSep_toStr n.root_document_name hpns hdns
  have hparts : splitSep '/' n.toStr =
      splitSep '/' n.root_document_name.toStr ++ splitSep '/' n.collection_path.toStr := by
    rw [CollectionName.toStr, splitSep_append]
  have hodd := CollectionPath.parts_odd n.collection_path hpath
  have hppos : 0 < (splitSep '/' n.collection_path.toStr).length :=
    List.length_pos.mpr (splitSep_ne_nil _ _)
  have hlen1 : 1 ≤ utf8Len n.toStr := by
    rw [CollectionName.toStr, utf8Len_append]
    have := (rootDocumentName_utf8Len_toStr hroot).1
    omega
  have hlenparts : (splitSep '/' n.toStr).length =
      5 + (splitSep '/' n.collection_path.toStr).length := by
    rw [hparts, List.length_append, hrootparts]
    rfl
  have hcond : ¬((splitSep '/' n.toStr).length < 5 + 1 ∨
      ((splitSep '/' n.toStr).length - 5) % 2 = 0) := by
    rw [hlenparts]
    omega
  have htake : (splitSep '/' n.toStr).take 5 = splitSep '/' n.root_document_name.toStr := by
    rw [hparts, hrootparts]
    rfl
  have hdrop : (splitSep '/' n.toStr).drop 5 = splitSep '/' n.collection_path.toStr := by
    rw [hparts, hrootparts]
    rfl
  have hcp : CollectionPath.tryFrom (joinSep '/' ((splitSep '/' n.toStr).drop 5)) =
      .ok n.collection_path := by
    rw [hdrop, joinSep_splitSep]
    exact collectionPath_format_parse hpath
  have hrt : RootDocumentName.tryFrom (joinSep '/' ((splitSep '/' n.toStr).take 5)) =
      .ok n.root_document_name := by
    rw [htake, joinSep_splitSep]
    exact rootDocumentName_format_parse hroot
  unfold CollectionName.tryFrom
  rw [if_neg (not_not_intro ⟨hlen1, hlen⟩), if_neg hcond]
  split
  · next e he =>
    rw [hcp] at he
    simp at he
  next cp' hcp' =>
    rw [hcp] at hcp'
    simp only [Except.ok.injEq] at hcp'
    subst hcp'
    split
    · next e he =>
      rw [hrt] at he
      simp at he
    next root' hroot' =>
      rw [hrt] at hroot'
      simp only [Except.ok.injEq] at hroot'
      subst hroot'
      rfl

theorem collectionName_parse_format {s : Str} {n : CollectionName}
    (h : CollectionName.tryFrom s = .ok n) : n.toStr = s := by
  unfold CollectionName.tryFrom at h
  split at h
  · simp at h
  next hlen =>
    split at h
    · simp at h
    next hcond =>
      split at h
      · simp at h
      next cp hcp =>
        split at h
        · simp at h
        next root hroot =>
          simp only [Except.ok.injEq] at h
          subst h
          push_neg at hcond
          obtain ⟨hge, hpar⟩ := hcond
          have htake_ne : (splitSep '/' s).take 5 ≠ [] := by
            have hl : ((splitSep '/' s).take 5).length = 5 := by
              rw [List.length_take]
              omega
            intro he
            rw [he] at hl
            simp at hl
          have hdrop_ne : (splitSep '/' s).drop 5 ≠ [] := by
            have hl : ((splitSep '/' s).drop 5).length = (splitSep '/' s).length - 5 :=
              List.length_drop _ _
            intro he
            rw [he] at hl
            simp at hl
            omega
          have h1 := rootDocumentName_parse_format hroot
          have h2 := collectionPath_parse_format hcp
          rw [CollectionName.toStr,
            show (CollectionName.mk cp root).root_document_name = root from rfl,
            show (CollectionName.mk cp root).collection_path = cp from rfl, h1, h2,
            ← joinSep_append '/' _ _ htake_ne hdrop_ne, List.take_append_drop,
            joinSep_splitSep]

theorem documentName_format_parse {n : DocumentName} (hv : n.Valid)
    (hlen : utf8Len n.toStr ≤ 6144) : DocumentName.tryFrom n.toStr = .ok n := by
  unfold DocumentName.Valid at hv
  obtain ⟨hroot, hpath⟩ := hv
  have hdb : n.root_document_name.database_name.Valid := hroot
  unfold DatabaseName.Valid at hdb
  obtain ⟨hp, hd⟩ := hdb
  obtain ⟨_, _, _, hpns, _⟩ := projectId_ok_facts hp
  obtain ⟨_, _, _, hdns, _⟩ := databaseId_ok_facts hd
  have hrootparts := rootDocumentName_splitSep_toStr n.root_document_name hpns hdns
  have hparts : splitSep '/' n.toStr =
      splitSep '/' n.root_document_name.toStr ++ splitSep '/' n.document_path.toStr := by
    rw [DocumentName.toStr, splitSep_append]
  have heven := DocumentPath.parts_even n.document_path hpath
  have hlen1 : 1 ≤ utf8Len n.toStr := by
    rw [DocumentName.toStr, utf8Len_append]
    have := (rootDocumentName_utf8Len_toStr hroot).1
    omega
  have hlenparts : (splitSep '/' n.toStr).length =
      5 + (splitSep '/' n.document_path.toStr).length := by
    rw [hparts, List.length_append, hrootparts]
    rfl
  have hcond : ¬((splitSep '/' n.toStr).length < 5 + 2 ∨
      ((splitSep '/' n.toStr).length - 5) % 2 ≠ 0) := by
    rw [hlenparts]
    omega
  have htake : (splitSep '/' n.toStr).take 5 = splitSep '/' n.root_document_name.toStr := by
    rw [hparts, hrootparts]
    rfl
  have hdrop : (splitSep '/' n.toStr).drop 5 = splitSep '/' n.document_path.toStr := by
    rw [hparts, hrootparts]
    rfl
  have hdp : DocumentPath.tryFrom (joinSep '/' ((splitSep '/' n.toStr).drop 5)) =
      .ok n.document_path := by
    rw [hdrop, joinSep_splitSep]
    exact documentPath_format_parse hpath
  have hrt : RootDocumentName.tryFrom (joinSep '/' ((splitSep '/' n.toStr).take 5)) =
      .ok n.root_document_name := by
    rw [htake, joinSep_splitSep]
    exact rootDocumentName_format_parse hroot
  unfold DocumentName.tryFrom
  rw [if_neg (not_not_intro ⟨hlen1, hlen⟩), if_neg hcond]
  split
  · next e he =>
    rw [hrt] at he
    simp at he
  next root' hroot' =>
    rw [hrt] at hroot'
    simp only [Except.ok.injEq] at hroot'
    subst hroot'
    split
    · next e he =>
      rw [hdp] at he
      simp at he
    next dp' hdp' =>
      rw [hdp] at hdp'
      simp only [Except.ok.injEq] at hdp'
      subst hdp'
      rfl

theorem documentName_parse_format {s : Str} {n : DocumentName}
    (h : DocumentName.tryFrom s = .ok n) : n.toStr = s := by
  unfold DocumentName.tryFrom at h
  split at h
  · simp at h
  next hlen =>
    split at h
    · simp at h
    next hcond =>
      split at h
      · simp at h
      next root hroot =>
        split at h
        · simp at h
        next dp hdp =>
          simp only [Except.ok.injEq] at h
          subst h
          push_neg at hcond
          obtain ⟨hge, hpar⟩ := hcond
          have htake_ne : (splitSep '/' s).take 5 ≠ [] := by
            have hl : ((splitSep '/' s).take 5).length = 5 := by
              rw [List.length_take]
              omega
            intro he
            rw [he] at hl
            simp at hl
          have hdrop_ne : (splitSep '/' s).drop 5 ≠ [] := by
            have hl : ((splitSep '/' s).drop 5).length = (splitSep '/' s).length - 5 :=
              List.length_drop _ _
            intro he
            rw [he] at hl
            simp at hl
            omega
          have h1 := rootDocumentName_parse_format hroot
          have h2 := documentPath_parse_format hdp
          rw [DocumentName.toStr,
            show (DocumentName.mk dp root).root_document_name = root from rfl,
            show (DocumentName.mk dp root).document_path = dp from rfl, h1, h2,
            ← joinSep_append '/' _ _ htake_ne hdrop_ne, List.take_append_drop,
            joinSep_splitSep]

/-! ## Claim theorems -/

/-- C1: for every string `s` accepted by the parser of any exported type
(ProjectId, DatabaseId, CollectionId, DocumentId, CollectionPath,
DocumentPath, DatabaseName, RootDocumentName, CollectionName, DocumentName),
formatting the parsed value reproduces `s` exactly. -/
theorem c1_parse_then_format_roundtrip :
    (∀ (s : Str) (p : ProjectId), ProjectId.tryFromP s = some (.ok p) → p.toStr = s) ∧
    (∀ (s : Str) (d : DatabaseId), DatabaseId.tryFromP s = some (.ok d) → d.toStr = s) ∧
    (∀ (s : Str) (c : CollectionId), CollectionId.tryFrom s = .ok c → c.toStr = s) ∧
    (∀ (s : Str) (d : DocumentId), DocumentId.tryFrom s = .ok d → d.toStr = s) ∧
    (∀ (s : Str) (cp : CollectionPath), CollectionPath.tryFrom s = .ok cp → cp.toStr = s) ∧
    (∀ (s : Str) (dp : DocumentPath), DocumentPath.tryFrom s = .ok dp → dp.toStr = s) ∧
    (∀ (s : Str) (n : DatabaseName), DatabaseName.tryFrom s = .ok n → n.toStr = s) ∧
    (∀ (s : Str) (n : RootDocumentName), RootDocumentName.tryFrom s = .ok n → n.toStr = s) ∧
    (∀ (s : Str) (n : CollectionName), CollectionName.tryFrom s = .ok n → n.toStr = s) ∧
    (∀ (s : Str) (n : DocumentName), DocumentName.tryFrom s = .ok n → n.toStr = s) :=
  ⟨fun _ _ h => (projectId_ok_facts h).1,
   fun _ _ h => (databaseId_ok_facts h).1,
   fun _ _ h => (collectionId_ok_facts h).1,
   fun _ _ h => (documentId_ok_facts h).1,
   fun _ _ h => collectionPath_parse_format h,
   fun _ _ h => documentPath_parse_format h,
   fun _ _ h => databaseName_parse_format h,
   fun _ _ h => rootDocumentName_parse_format h,
   fun _ _ h => collectionName_parse_format h,
   fun _ _ h => documentName_parse_format h⟩

/-- C1 witness: the round trip instantiated at one accepted string per type. -/
theorem c1_parse_then_format_roundtrip_witness :
    ProjectId.toStr ⟨str "my-project"⟩ = str "my-project" ∧
    DatabaseId.toStr ⟨str "my-database"⟩ = str "my-database" ∧
    CollectionId.toStr ⟨str "chatrooms"⟩ = str "chatrooms" ∧
    DocumentId.toStr ⟨str "chatroom1"⟩ = str "chatroom1" ∧
    CollectionPath.toStr (.nested (.mk (.root ⟨str "chatrooms"⟩) ⟨str "chatroom1"⟩)
      ⟨str "messages"⟩) = str "chatrooms/chatroom1/messages" ∧
    DocumentPath.toStr (.mk (.root ⟨str "chatrooms"⟩) ⟨str "chatroom1"⟩) =
      str "chatrooms/chatroom1" ∧
    DatabaseName.toStr ⟨⟨str "my-database"⟩, ⟨str "my-project"⟩⟩ =
      str "projects/my-project/databases/my-database" ∧
    RootDocumentName.toStr ⟨⟨⟨str "my-database"⟩, ⟨str "my-project"⟩⟩⟩ =
      str "projects/my-project/databases/my-database/documents" ∧
    CollectionName.toStr ⟨.root ⟨str "chatrooms"⟩, ⟨⟨⟨str "my-database"⟩,
      ⟨str "my-project"⟩⟩⟩⟩ =
      str "projects/my-project/databases/my-database/documents/chatrooms" ∧
    DocumentName.toStr ⟨.mk (.root ⟨str "chatrooms"⟩) ⟨str "chatroom1"⟩,
      ⟨⟨⟨str "my-database"⟩, ⟨str "my-project"⟩⟩⟩⟩ =
      str "projects/my-project/databases/my-database/documents/chatrooms/chatroom1" :=
  ⟨c1_parse_then_format_roundtrip.1 _ _ rfl,
   c1_parse_then_format_roundtrip.2.1 _ _ rfl,
   c1_parse_then_format_roundtrip.2.2.1 _ _ rfl,
   c1_parse_then_format_roundtrip.2.2.2.1 _ _ rfl,
   c1_parse_then_format_roundtrip.2.2.2.2.1 _ _ rfl,
   c1_parse_then_format_roundtrip.2.2.2.2.2.1 _ _ rfl,
   c1_parse_then_format_roundtrip.2.2.2.2.2.2.1 _ _ rfl,
   c1_parse_then_format_roundtrip.2.2.2.2.2.2.2.1 _ _ rfl,
   c1_parse_then_format_roundtrip.2.2.2.2.2.2.2.2.1 _ _ rfl,
   c1_parse_then_format_roundtrip.2.2.2.2.2.2.2.2.2 _ _ rfl⟩

/-- C3: appending a CollectionPath to a DocumentPath via
`DocumentPath::collection` succeeds and equals the parse of
`to_string(d) ++ "/" ++ to_string(p)`; in particular for
`chatrooms/chatroom1` and `messages/message1/col`. -/
theorem c3_collection_reroots :
    (∀ (d : DocumentPath) (p : CollectionPath), d.Valid → p.Valid →
      ∃ c : CollectionPath, DocumentPath.collectionP d p = some c ∧
        CollectionPath.tryFrom (d.toStr ++ '/' :: p.toStr) = .ok c) ∧
    (DocumentPath.tryFrom (str "chatrooms/chatroom1")).toOption.bind (fun d =>
      (CollectionPath.tryFrom (str "messages/message1/col")).toOption.bind (fun p =>
        DocumentPath.collectionP d p)) =
      (CollectionPath.tryFrom (str "chatrooms/chatroom1/messages/message1/col")).toOption := by
  constructor
  · intro d p hd hp
    refine ⟨rerootC d p, DocumentPath.collectionP_eq d p, ?_⟩
    rw [← rerootC_toStr d p]
    exact collectionPath_format_parse (rerootC_valid d hd p hp)
  · rfl

/-- C3 witness: the re-rooting applied to `chatrooms/chatroom1` and
`messages/message1/col`. -/
theorem c3_collection_reroots_witness :
    ∃ c : CollectionPath,
      DocumentPath.collectionP (.mk (.root ⟨str "chatrooms"⟩) ⟨str "chatroom1"⟩)
        (.nested (.mk (.root ⟨str "messages"⟩) ⟨str "message1"⟩) ⟨str "col"⟩) = some c ∧
      CollectionPath.tryFrom
        ((DocumentPath.mk (.root ⟨str "chatrooms"⟩) ⟨str "chatroom1"⟩).toStr ++ '/' ::
          (CollectionPath.nested (.mk (.root ⟨str "messages"⟩) ⟨str "message1"⟩)
            ⟨str "col"⟩).toStr) = .ok c := by
  have hd : DocumentPath.validB (.mk (.root ⟨str "chatrooms"⟩) ⟨str "chatroom1"⟩) = true := by
    decide
  have hp : CollectionPath.validB
      (.nested (.mk (.root ⟨str "messages"⟩) ⟨str "message1"⟩) ⟨str "col"⟩) = true := by
    decide
  exact c3_collection_reroots.1 _ _ hd hp

/-- C10: parsing and construction are total: the `expect` calls in the
ProjectId and DatabaseId validators and the `unreachable!` branches in
`DocumentPath::collection` are never reached (`none` in the model stands for
the panic). -/
theorem c10_no_panics :
    (∀ s : Str, (ProjectId.tryFromP s).isSome = true) ∧
    (∀ s : Str, (DatabaseId.tryFromP s).isSome = true) ∧
    (∀ (d : DocumentPath) (cp : CollectionPath),
      (DocumentPath.collectionP d cp).isSome = true) := by
  refine ⟨?_, ?_, ?_⟩
  · intro s
    unfold ProjectId.tryFromP
    split
    · rfl
    next hlen =>
      split
      · rfl
      next =>
        split
        · next hemp =>
          exfalso
          obtain ⟨h6, _⟩ := not_not.mp hlen
          have hnil : s = [] := by
            cases s with
            | nil => rfl
            | cons c cs => simp [List.isEmpty] at hemp
          rw [hnil] at h6
          simp [utf8Len] at h6
        next =>
          split
          · rfl
          split
          · rfl
          split
          · rfl
          · rfl
  · intro s
    unfold DatabaseId.tryFromP
    split
    · rfl
    next =>
      split
      · rfl
      next hlen =>
        split
        · rfl
        next =>
          split
          · next hemp =>
            exfalso
            obtain ⟨h4, _⟩ := not_not.mp hlen
            have hnil : s = [] := by
              cases s with
              | nil => rfl
              | cons c cs => simp [List.isEmpty] at hemp
            rw [hnil] at h4
            simp [utf8Len] at h4
          next =>
            split
            · rfl
            split
            · rfl
            · rfl
  · intro d cp
    rw [DocumentPath.collectionP_eq]
    rfl

/-- C8 counterexample: the implemented reserved-id check flags `"___"`, but
`"___"` does not match the regular expression `__.*__`, so the two predicates
are not equivalent. -/
theorem c8_counterexample :
    reservedIdCheck (str "___") = true ∧ ¬MatchesReservedRegex (str "___") := by
  constructor
  · decide
  · rintro ⟨t, ht⟩
    have hlen := congrArg List.length ht
    rw [List.length_append, List.length_append] at hlen
    rw [show (str "___").length = 3 from rfl, show (str "__").length = 2 from rfl] at hlen
    omega

/-- C8 amended: the implemented check (starts with `__` and ends with `__`)
agrees with full-match of the regular expression `__.*__` except on the two
short strings `"__"` and `"___"`, where the check holds but the regex does
not match. -/
theorem c8_reserved_check_vs_regex_amended :
    ∀ s : Str, reservedIdCheck s = true ↔
      (MatchesReservedRegex s ∨ s = str "__" ∨ s = str "___") := by
  intro s
  unfold reservedIdCheck MatchesReservedRegex
  rw [Bool.and_eq_true, isPfx_iff, isSfx_iff]
  have e2 : str "__" = ['_', '_'] := rfl
  have e3 : str "___" = ['_', '_', '_'] := rfl
  rw [e2, e3]
  constructor
  · rintro ⟨⟨t1, rfl⟩, ⟨t2, h2⟩⟩
    cases t1 with
    | nil =>
      right
      left
      simp
    | cons a t1' =>
      cases t1' with
      | nil =>
        right
        right
        cases t2 with
        | nil => simp at h2
        | cons x t2'' =>
          cases t2'' with
          | nil =>
            rw [show (['_', '_'] ++ [a] : Str) = ['_', '_', a] from rfl,
              show ((x :: []) ++ ['_', '_'] : Str) = [x, '_', '_'] from rfl] at h2
            injection h2 with h1 h2'
            injection h2' with h2'' h3
            injection h3 with h4 h5
            rw [h4]
            rfl
          | cons y t3 =>
            simp only [List.cons_append, List.nil_append, List.cons.injEq] at h2
            obtain ⟨-, -, h3⟩ := h2
            have hl := congrArg List.length h3
            simp [List.length_append] at hl
      | cons b t1'' =>
        left
        cases t2 with
        | nil =>
          have hl := congrArg List.length h2
          simp [List.length_append] at hl
        | cons u t2'' =>
          cases t2'' with
          | nil =>
            have hl := congrArg List.length h2
            simp [List.length_append] at hl
          | cons v t2' =>
            simp only [List.cons_append, List.nil_append, List.cons.injEq] at h2
            obtain ⟨hu, hv, h3⟩ := h2
            refine ⟨t2', ?_⟩
            rw [List.append_assoc, h3]
  · rintro (⟨t, rfl⟩ | rfl | rfl)
    · exact ⟨⟨t ++ ['_', '_'], by simp [List.append_assoc]⟩,
        ⟨['_', '_'] ++ t, by simp [List.append_assoc]⟩⟩
    · exact ⟨⟨[], by simp⟩, ⟨[], rfl⟩⟩
    · exact ⟨⟨['_'], rfl⟩, ⟨['_'], rfl⟩⟩

/-- C4: a string is accepted by CollectionName's parser only with at least 6
segments and an odd remainder after the first 5; by DocumentName's parser only
with an even remainder of at least 2; and a string within the 1-6144 byte
bound with too few segments or wrong parity is rejected with
`InvalidNumberOfPathComponents`. -/
theorem c4_segment_count_and_parity :
    (∀ (s : Str) (n : CollectionName), CollectionName.tryFrom s = .ok n →
      6 ≤ (splitSep '/' s).length ∧ ((splitSep '/' s).length - 5) % 2 = 1) ∧
    (∀ (s : Str) (n : DocumentName), DocumentName.tryFrom s = .ok n →
      ((splitSep '/' s).length - 5) % 2 = 0 ∧ 2 ≤ (splitSep '/' s).length - 5) ∧
    (∀ s : Str, 1 ≤ utf8Len s → utf8Len s ≤ 6144 →
      (splitSep '/' s).length < 6 ∨ ((splitSep '/' s).length - 5) % 2 = 0 →
      CollectionName.tryFrom s = .error (.kind .InvalidNumberOfPathComponents)) ∧
    (∀ s : Str, 1 ≤ utf8Len s → utf8Len s ≤ 6144 →
      (splitSep '/' s).length < 7 ∨ ((splitSep '/' s).length - 5) % 2 ≠ 0 →
      DocumentName.tryFrom s = .error (.kind .InvalidNumberOfPathComponents)) := by
  refine ⟨?_, ?_, ?_, ?_⟩
  · intro s n h
    unfold CollectionName.tryFrom at h
    split at h
    · simp at h
    split at h
    · simp at h
    next hcond =>
      push_neg at hcond
      obtain ⟨h6, hpar⟩ := hcond
      constructor
      · omega
      · omega
  · intro s n h
    unfold DocumentName.tryFrom at h
    split at h
    · simp at h
    split at h
    · simp at h
    next hcond =>
      push_neg at hcond
      obtain ⟨h7, hpar⟩ := hcond
      constructor
      · omega
      · omega
  · intro s h1 h2 hbad
    unfold CollectionName.tryFrom
    rw [if_neg (not_not_intro ⟨h1, h2⟩), if_pos hbad]
  · intro s h1 h2 hbad
    unfold DocumentName.tryFrom
    rw [if_neg (not_not_intro ⟨h1, h2⟩), if_pos hbad]

/-- C4 witness: instantiated at concrete accepted and rejected strings. -/
theorem c4_segment_count_and_parity_witness :
    (6 ≤ (splitSep '/'
        (str "projects/my-project/databases/my-database/documents/chatrooms")).length ∧
      ((splitSep '/'
        (str "projects/my-project/databases/my-database/documents/chatrooms")).length - 5)
        % 2 = 1) ∧
    (((splitSep '/'
        (str "projects/my-project/databases/my-database/documents/chatrooms/chatroom1")).length
        - 5) % 2 = 0 ∧
      2 ≤ (splitSep '/'
        (str "projects/my-project/databases/my-database/documents/chatrooms/chatroom1")).length
        - 5) ∧
    CollectionName.tryFrom
        (str "projects/my-project/databases/my-database/documents/chatrooms/chatroom1") =
      .error (.kind .InvalidNumberOfPathComponents) ∧
    DocumentName.tryFrom
        (str "projects/my-project/databases/my-database/documents/chatrooms") =
      .error (.kind .InvalidNumberOfPathComponents) :=
  ⟨c4_segment_count_and_parity.1 _
      ⟨.root ⟨str "chatrooms"⟩, ⟨⟨⟨str "my-database"⟩, ⟨str "my-project"⟩⟩⟩⟩ rfl,
   c4_segment_count_and_parity.2.1 _
      ⟨.mk (.root ⟨str "chatrooms"⟩) ⟨str "chatroom1"⟩,
        ⟨⟨⟨str "my-database"⟩, ⟨str "my-project"⟩⟩⟩⟩ rfl,
   c4_segment_count_and_parity.2.2.1 _ (by decide) (by decide) (by decide),
   c4_segment_count_and_parity.2.2.2 _ (by decide) (by decide) (by decide)⟩

/-- C5 counterexample: `projects/my-project/databases/my-database/documents/chatrooms`
is accepted by CollectionName's parser with 6 total segments, i.e. a relative
remainder of 1 part, which is odd, refuting "5 plus an even, non-zero number
of parts" for CollectionName. -/
theorem c5_counterexample :
    (CollectionName.tryFrom
      (str "projects/my-project/databases/my-database/documents/chatrooms")).isOk = true ∧
    (splitSep '/'
      (str "projects/my-project/databases/my-database/documents/chatrooms")).length = 6 ∧
    ((splitSep '/'
      (str "projects/my-project/databases/my-database/documents/chatrooms")).length - 5)
      % 2 = 1 := by
  refine ⟨by decide, by decide, by decide⟩

/-- C5 amended: for DocumentName the total part count is 5 plus an even,
non-zero remainder; for CollectionName it is 5 plus an odd remainder. -/
theorem c5_segment_count_amended :
    (∀ (s : Str) (n : DocumentName), DocumentName.tryFrom s = .ok n →
      ∃ k, (splitSep '/' s).length = 5 + k ∧ k % 2 = 0 ∧ k ≠ 0) ∧
    (∀ (s : Str) (n : CollectionName), CollectionName.tryFrom s = .ok n →
      ∃ k, (splitSep '/' s).length = 5 + k ∧ k % 2 = 1) := by
  constructor
  · intro s n h
    unfold DocumentName.tryFrom at h
    split at h
    · simp at h
    split at h
    · simp at h
    next hcond =>
      push_neg at hcond
      obtain ⟨h7, hpar⟩ := hcond
      exact ⟨(splitSep '/' s).length - 5, by omega, by omega, by omega⟩
  · intro s n h
    unfold CollectionName.tryFrom at h
    split at h
    · simp at h
    split at h
    · simp at h
    next hcond =>
      push_neg at hcond
      obtain ⟨h6, hpar⟩ := hcond
      exact ⟨(splitSep '/' s).length - 5, by omega, by omega⟩

/-- C5 amended witness: instantiated at one accepted string per parser. -/
theorem c5_segment_count_amended_witness :
    (∃ k, (splitSep '/'
      (str "projects/my-project/databases/my-database/documents/chatrooms/chatroom1")).length
        = 5 + k ∧ k % 2 = 0 ∧ k ≠ 0) ∧
    (∃ k, (splitSep '/'
      (str "projects/my-project/databases/my-database/documents/chatrooms")).length
        = 5 + k ∧ k % 2 = 1) :=
  ⟨c5_segment_count_amended.1 _
      ⟨.mk (.root ⟨str "chatrooms"⟩) ⟨str "chatroom1"⟩,
        ⟨⟨⟨str "my-database"⟩, ⟨str "my-project"⟩⟩⟩⟩ rfl,
   c5_segment_count_amended.2 _
      ⟨.root ⟨str "chatrooms"⟩, ⟨⟨⟨str "my-database"⟩, ⟨str "my-project"⟩⟩⟩⟩ rfl⟩

/-- C6: `project_id.rs` does not use the crate's shared error type: every
failing validation returns the module-local placeholder `Error::ToDo`,
so length, character-class, first-character, hyphen and reserved-substring
failures are indistinguishable, contrary to the claimed
`LengthOutOfBounds`/`ContainsInvalidCharacter`/`StartsWithNonLetter`/
`EndsWithHyphen`/reserved-substring kinds. -/
theorem c6_projectid_error_is_todo :
    (∀ (s : Str) (e : ProjectIdError), ProjectId.tryFromP s = some (.error e) → e = .ToDo) ∧
    ProjectId.tryFromP (str "xxxxx") = some (.error .ToDo) ∧
    ProjectId.tryFromP (str "xxxxxx-") = some (.error .ToDo) := by
  refine ⟨?_, by decide, by decide⟩
  intro s e _
  cases e
  rfl

/-- C6 witness: the collapsed error kind at the 5-byte failing input. -/
theorem c6_projectid_error_is_todo_witness : ProjectIdError.ToDo = ProjectIdError.ToDo :=
  c6_projectid_error_is_todo.1 (str "xxxxx") .ToDo (by decide)

/-- C7 counterexample: a 4-segment DatabaseName string with a mismatched
`projects` literal is rejected with `InvalidName`, not with
`InvalidNumberOfPathComponents` as claimed; the two kinds are distinct. -/
theorem c7_counterexample :
    DatabaseName.tryFrom (str "p/my-project/databases/my-database") =
      .error (.kind .InvalidName) ∧
    ErrorKind.InvalidName ≠ ErrorKind.InvalidNumberOfPathComponents := by
  refine ⟨by decide, by decide⟩

/-- C7 amended: for DatabaseName and RootDocumentName (within the length
bound), a wrong segment count yields `InvalidNumberOfPathComponents` and a
mismatched fixed literal segment yields `InvalidName`; the two kinds are
distinct and never conflated. -/
theorem c7_literal_vs_count_errors_amended :
    (∀ s : Str, 1 ≤ utf8Len s → utf8Len s ≤ 6144 → (splitSep '/' s).length ≠ 4 →
      DatabaseName.tryFrom s = .error (.kind .InvalidNumberOfPathComponents)) ∧
    (∀ (s p0 p1 p2 p3 : Str), splitSep '/' s = [p0, p1, p2, p3] →
      1 ≤ utf8Len s → utf8Len s ≤ 6144 →
      ¬(p0 = str "projects" ∧ p2 = str "databases") →
      DatabaseName.tryFrom s = .error (.kind .InvalidName)) ∧
    (∀ s : Str, 1 ≤ utf8Len s → utf8Len s ≤ 6144 → (splitSep '/' s).length ≠ 5 →
      RootDocumentName.tryFrom s = .error (.kind .InvalidNumberOfPathComponents)) ∧
    (∀ (s p0 p1 p2 p3 p4 : Str), splitSep '/' s = [p0, p1, p2, p3, p4] →
      1 ≤ utf8Len s → utf8Len s ≤ 6144 →
      ¬(p0 = str "projects" ∧ p2 = str "databases" ∧ p4 = str "documents") →
      RootDocumentName.tryFrom s = .error (.kind .InvalidName)) ∧
    ErrorKind.InvalidName ≠ ErrorKind.InvalidNumberOfPathComponents := by
  refine ⟨?_, ?_, ?_, ?_, by decide⟩
  · intro s h1 h2 hne
    unfold DatabaseName.tryFrom
    rw [if_neg (not_not_intro ⟨h1, h2⟩)]
    split
    · next p0 p1 p2 p3 heq =>
      exfalso
      apply hne
      rw [heq]
      rfl
    · rfl
  · intro s p0 p1 p2 p3 hparts h1 h2 hlit
    unfold DatabaseName.tryFrom
    rw [if_neg (not_not_intro ⟨h1, h2⟩)]
    split
    · next q0 q1 q2 q3 heq =>
      rw [hparts] at heq
      simp only [List.cons.injEq, and_true] at heq
      obtain ⟨e0, e1, e2, e3⟩ := heq
      subst e0
      subst e1
      subst e2
      subst e3
      rw [if_pos hlit]
    · next hno =>
      exact absurd hparts (hno _ _ _ _)
  · intro s h1 h2 hne
    unfold RootDocumentName.tryFrom
    rw [if_neg (not_not_intro ⟨h1, h2⟩)]
    split
    · next p0 p1 p2 p3 p4 heq =>
      exfalso
      apply hne
      rw [heq]
      rfl
    · rfl
  · intro s p0 p1 p2 p3 p4 hparts h1 h2 hlit
    unfold RootDocumentName.tryFrom
    rw [if_neg (not_not_intro ⟨h1, h2⟩)]
    split
    · next q0 q1 q2 q3 q4 heq =>
      rw [hparts] at heq
      simp only [List.cons.injEq, and_true] at heq
      obtain ⟨e0, e1, e2, e3, e4⟩ := heq
      subst e0
      subst e1
      subst e2
      subst e3
      subst e4
      rw [if_pos hlit]
    · next hno =>
      exact absurd hparts (hno _ _ _ _ _)

/-- C7 amended witness: concrete wrong-count and wrong-literal inputs for
both name parsers. -/
theorem c7_literal_vs_count_errors_amended_witness :
    DatabaseName.tryFrom (str "projects/my-project/databases/my-database/x") =
      .error (.kind .InvalidNumberOfPathComponents) ∧
    DatabaseName.tryFrom (str "p/my-project/d/my-database") =
      .error (.kind .InvalidName) ∧
    RootDocumentName.tryFrom (str "projects/my-project/databases/my-database") =
      .error (.kind .InvalidNumberOfPathComponents) ∧
    RootDocumentName.tryFrom (str "projects/my-project/databases/my-database/d") =
      .error (.kind .InvalidName) :=
  ⟨c7_literal_vs_count_errors_amended.1 _ (by decide) (by decide) (by decide),
   c7_literal_vs_count_errors_amended.2.1 _ (str "p") (str "my-project") (str "d")
     (str "my-database") (by decide) (by decide) (by decide) (by decide),
   c7_literal_vs_count_errors_amended.2.2.1 _ (by decide) (by decide) (by decide),
   c7_literal_vs_count_errors_amended.2.2.2.1 _ (str "projects") (str "my-project")
     (str "databases") (str "my-database") (str "d") (by decide) (by decide) (by decide)
     (by decide)⟩

/-- C9: boundary byte lengths.  CollectionId/DocumentId accept 1 and 1500
bytes and reject 0 and 1501; ProjectId accepts 6 and 30 and rejects 5 and 31;
DatabaseId (other than the literal `(default)`) accepts 4 and 63 and rejects
3 and 64 — in each case assuming the other rules of the identifier hold. -/
theorem c9_boundary_lengths :
    (∀ s : Str, (utf8Len s = 1 ∨ utf8Len s = 1500) → '/' ∉ s → s ≠ str "." →
      s ≠ str ".." → reservedIdCheck s = false → CollectionId.tryFrom s = .ok ⟨s⟩) ∧
    (∀ s : Str, utf8Len s = 0 ∨ utf8Len s = 1501 →
      CollectionId.tryFrom s = .error .LengthOutOfBounds) ∧
    (∀ s : Str, (utf8Len s = 1 ∨ utf8Len s = 1500) → '/' ∉ s → s ≠ str "." →
      s ≠ str ".." → reservedIdCheck s = false → DocumentId.tryFrom s = .ok ⟨s⟩) ∧
    (∀ s : Str, utf8Len s = 0 ∨ utf8Len s = 1501 →
      DocumentId.tryFrom s = .error .LengthOutOfBounds) ∧
    (∀ s : Str, (utf8Len s = 6 ∨ utf8Len s = 30) → s.all idChar = true →
      s.headI.isLower = true → s.getLastI ≠ '-' →
      hasSub (str "google") s = false → hasSub (str "null") s = false →
      hasSub (str "undefined") s = false → hasSub (str "ssl") s = false →
      ProjectId.tryFromP s = some (.ok ⟨s⟩)) ∧
    (∀ s : Str, utf8Len s = 5 ∨ utf8Len s = 31 →
      ProjectId.tryFromP s = some (.error .ToDo)) ∧
    (∀ s : Str, s ≠ str "(default)" → (utf8Len s = 4 ∨ utf8Len s = 63) →
      s.all idChar = true → s.headI.isLower = true → isSfx (str "-") s = false →
      DatabaseId.tryFromP s = some (.ok ⟨s⟩)) ∧
    (∀ s : Str, s ≠ str "(default)" → (utf8Len s = 3 ∨ utf8Len s = 64) →
      DatabaseId.tryFromP s = some (.error .LengthOutOfBounds)) := by
  refine ⟨?_, ?_, ?_, ?_, ?_, ?_, ?_, ?_⟩
  · intro s hl h3 h4 h5 h6
    exact collectionId_ok_of (by rcases hl with h | h <;> omega)
      (by rcases hl with h | h <;> omega) h3 h4 h5 h6
  · intro s hl
    unfold CollectionId.tryFrom
    rw [if_pos (by rcases hl with h | h <;> omega)]
  · intro s hl h3 h4 h5 h6
    exact documentId_ok_of (by rcases hl with h | h <;> omega)
      (by rcases hl with h | h <;> omega) h3 h4 h5 h6
  · intro s hl
    unfold DocumentId.tryFrom
    rw [if_pos (by rcases hl with h | h <;> omega)]
  · intro s hl hall hlow hlast hg hn hu hss
    have h6 : 6 ≤ utf8Len s ∧ utf8Len s ≤ 30 := by rcases hl with h | h <;> omega
    have hne : s ≠ [] := by
      intro he
      rw [he] at h6
      exact absurd h6.1 (by decide)
    have hemp : ¬(s.isEmpty = true) := by
      cases s with
      | nil => exact absurd rfl hne
      | cons c cs => simp
    unfold ProjectId.tryFromP
    rw [if_neg (not_not_intro h6), if_neg (not_not_intro hall), if_neg hemp,
      if_neg (not_not_intro hlow), if_neg hlast, if_neg (by simp [hg, hn, hu, hss])]
  · intro s hl
    unfold ProjectId.tryFromP
    rw [if_pos (by rcases hl with h | h <;> omega)]
  · intro s hdef hl hall hlow hsfx
    have h4 : 4 ≤ utf8Len s ∧ utf8Len s ≤ 63 := by rcases hl with h | h <;> omega
    have hne : s ≠ [] := by
      intro he
      rw [he] at h4
      exact absurd h4.1 (by decide)
    have hemp : ¬(s.isEmpty = true) := by
      cases s with
      | nil => exact absurd rfl hne
      | cons c cs => simp
    unfold DatabaseId.tryFromP
    rw [if_neg hdef, if_neg (not_not_intro h4), if_neg (not_not_intro hall), if_neg hemp,
      if_neg (not_not_intro hlow), if_neg (by simp [hsfx])]
  · intro s hdef hl
    unfold DatabaseId.tryFromP
    rw [if_neg hdef, if_pos (by rcases hl with h | h <;> omega)]

/-- C9 witness: the boundaries instantiated at concrete strings. -/
theorem c9_boundary_lengths_witness :
    CollectionId.tryFrom (List.replicate 1500 'x') = .ok ⟨List.replicate 1500 'x'⟩ ∧
    CollectionId.tryFrom (List.replicate 1501 'x') = .error .LengthOutOfBounds ∧
    DocumentId.tryFrom (str "x") = .ok ⟨str "x"⟩ ∧
    DocumentId.tryFrom (str "") = .error .LengthOutOfBounds ∧
    ProjectId.tryFromP (str "xxxxxx") = some (.ok ⟨str "xxxxxx"⟩) ∧
    ProjectId.tryFromP (str "xxxxx") = some (.error .ToDo) ∧
    DatabaseId.tryFromP (str "xxxx") = some (.ok ⟨str "xxxx"⟩) ∧
    DatabaseId.tryFromP (str "xxx") = some (.error .LengthOutOfBounds) := by
  have hx1500 : utf8Len (List.replicate 1500 'x') = 1500 := by
    rw [utf8Len_replicate]
    decide
  have hx1501 : utf8Len (List.replicate 1501 'x') = 1501 := by
    rw [utf8Len_replicate]
    decide
  have hmem : ('/' : Char) ∉ List.replicate 1500 'x' := by
    simp only [List.mem_replicate]
    decide
  have hne1 : (List.replicate 1500 'x' : Str) ≠ str "." := by
    intro h
    have hl := congrArg List.length h
    rw [List.length_replicate, show (str ".").length = 1 from rfl] at hl
    omega
  have hne2 : (List.replicate 1500 'x' : Str) ≠ str ".." := by
    intro h
    have hl := congrArg List.length h
    rw [List.length_replicate, show (str "..").length = 2 from rfl] at hl
    omega
  have hres : reservedIdCheck (List.replicate 1500 'x') = false := by decide
  exact ⟨c9_boundary_lengths.1 _ (Or.inr hx1500) hmem hne1 hne2 hres,
    c9_boundary_lengths.2.1 _ (Or.inr hx1501),
    c9_boundary_lengths.2.2.1 _ (by decide) (by decide) (by decide) (by decide) (by decide),
    c9_boundary_lengths.2.2.2.1 _ (by decide),
    c9_boundary_lengths.2.2.2.2.1 _ (by decide) (by decide) (by decide) (by decide)
      (by decide) (by decide) (by decide) (by decide),
    c9_boundary_lengths.2.2.2.2.2.1 _ (by decide),
    c9_boundary_lengths.2.2.2.2.2.2.1 _ (by decide) (by decide) (by decide) (by decide)
      (by decide),
    c9_boundary_lengths.2.2.2.2.2.2.2 _ (by decide) (by decide)⟩

/-- C2 counterexample: a valid `CollectionName` built from validated
components whose display string exceeds 6144 bytes fails to re-parse,
refuting unconditional round-trip stability for constructed instances. -/
theorem c2_counterexample :
    oversizedCollectionName.Valid ∧
    CollectionName.tryFrom oversizedCollectionName.toStr =
      .error (.kind .LengthOutOfBounds) := by
  have hx1500 : utf8Len (List.replicate 1500 'x') = 1500 := by
    rw [utf8Len_replicate]
    decide
  have hmem : ('/' : Char) ∉ List.replicate 1500 'x' := by
    simp only [List.mem_replicate]
    decide
  have hne1 : (List.replicate 1500 'x' : Str) ≠ str "." := by
    intro h
    have hl := congrArg List.length h
    rw [List.length_replicate, show (str ".").length = 1 from rfl] at hl
    omega
  have hne2 : (List.replicate 1500 'x' : Str) ≠ str ".." := by
    intro h
    have hl := congrArg List.length h
    rw [List.length_replicate, show (str "..").length = 2 from rfl] at hl
    omega
  have hres : reservedIdCheck (List.replicate 1500 'x') = false := by decide
  have hcx : CollectionId.tryFrom (List.replicate 1500 'x') =
      .ok ⟨List.replicate 1500 'x'⟩ :=
    collectionId_ok_of (by omega) (by omega) hmem hne1 hne2 hres
  have hdx : DocumentId.tryFrom (List.replicate 1500 'x') =
      .ok ⟨List.replicate 1500 'x'⟩ :=
    documentId_ok_of (by omega) (by omega) hmem hne1 hne2 hres
  constructor
  · refine ⟨⟨by decide, by decide⟩, ?_⟩
    exact CollectionPath.valid_nested.mpr ⟨DocumentPath.valid_mk.mpr
      ⟨CollectionPath.valid_nested.mpr ⟨DocumentPath.valid_mk.mpr
        ⟨CollectionPath.valid_root.mpr hcx, hdx⟩, hcx⟩, hdx⟩, hcx⟩
  · have hr : utf8Len oversizedCollectionName.root_document_name.toStr = 45 := by decide
    have hsize : '/'.utf8Size = 1 := by decide
    have hp : utf8Len oversizedCollectionName.collection_path.toStr = 7504 := by
      simp only [oversizedCollectionName, CollectionPath.toStr, DocumentPath.toStr,
        utf8Len_append, utf8Len_cons, hx1500, hsize]
    have hlen2 : utf8Len oversizedCollectionName.toStr = 7550 := by
      rw [CollectionName.toStr, utf8Len_append, utf8Len_cons, hr, hp, hsize]
    unfold CollectionName.tryFrom
    rw [if_pos (by rw [hlen2]; decide)]

/-- C2 amended: parsing the display string of a valid instance reproduces it,
unconditionally for CollectionPath, DocumentPath, DatabaseName and
RootDocumentName, and for CollectionName/DocumentName whenever the display
string is within the 6144-byte parser bound. -/
theorem c2_format_then_parse_amended :
    (∀ cp : CollectionPath, cp.Valid → CollectionPath.tryFrom cp.toStr = .ok cp) ∧
    (∀ dp : DocumentPath, dp.Valid → DocumentPath.tryFrom dp.toStr = .ok dp) ∧
    (∀ n : DatabaseName, n.Valid → DatabaseName.tryFrom n.toStr = .ok n) ∧
    (∀ n : RootDocumentName, n.Valid → RootDocumentName.tryFrom n.toStr = .ok n) ∧
    (∀ n : CollectionName, n.Valid → utf8Len n.toStr ≤ 6144 →
      CollectionName.tryFrom n.toStr = .ok n) ∧
    (∀ n : DocumentName, n.Valid → utf8Len n.toStr ≤ 6144 →
      DocumentName.tryFrom n.toStr = .ok n) :=
  ⟨fun _ h => collectionPath_format_parse h,
   fun _ h => documentPath_format_parse h,
   fun _ h => databaseName_format_parse h,
   fun _ h => rootDocumentName_format_parse h,
   fun _ h hl => collectionName_format_parse h hl,
   fun _ h hl => documentName_format_parse h hl⟩

/-- C2 amended witness: the format-then-parse round trip at one concrete
valid instance per composite type. -/
theorem c2_format_then_parse_amended_witness :
    CollectionPath.tryFrom (CollectionPath.root ⟨str "chatrooms"⟩).toStr =
      .ok (.root ⟨str "chatrooms"⟩) ∧
    DocumentPath.tryFrom (DocumentPath.mk (.root ⟨str "chatrooms"⟩) ⟨str "chatroom1"⟩).toStr =
      .ok (.mk (.root ⟨str "chatrooms"⟩) ⟨str "chatroom1"⟩) ∧
    DatabaseName.tryFrom (DatabaseName.mk ⟨str "my-database"⟩ ⟨str "my-project"⟩).toStr =
      .ok ⟨⟨str "my-database"⟩, ⟨str "my-project"⟩⟩ ∧
    RootDocumentName.tryFrom
        (RootDocumentName.mk ⟨⟨str "my-database"⟩, ⟨str "my-project"⟩⟩).toStr =
      .ok ⟨⟨⟨str "my-database"⟩, ⟨str "my-project"⟩⟩⟩ ∧
    CollectionName.tryFrom (CollectionName.mk (.root ⟨str "chatrooms"⟩)
        ⟨⟨⟨str "my-database"⟩, ⟨str "my-project"⟩⟩⟩).toStr =
      .ok ⟨.root ⟨str "chatrooms"⟩, ⟨⟨⟨str "my-database"⟩, ⟨str "my-project"⟩⟩⟩⟩ ∧
    DocumentName.tryFrom (DocumentName.mk (.mk (.root ⟨str "chatrooms"⟩) ⟨str "chatroom1"⟩)
        ⟨⟨⟨str "my-database"⟩, ⟨str "my-project"⟩⟩⟩).toStr =
      .ok ⟨.mk (.root ⟨str "chatrooms"⟩) ⟨str "chatroom1"⟩,
        ⟨⟨⟨str "my-database"⟩, ⟨str "my-project"⟩⟩⟩⟩ := by
  have h1 : CollectionPath.validB (.root ⟨str "chatrooms"⟩) = true := by decide
  have h2 : DocumentPath.validB (.mk (.root ⟨str "chatrooms"⟩) ⟨str "chatroom1"⟩) = true := by
    decide
  have hdb : DatabaseName.Valid ⟨⟨str "my-database"⟩, ⟨str "my-project"⟩⟩ :=
    ⟨by decide, by decide⟩
  exact ⟨c2_format_then_parse_amended.1 _ h1,
    c2_format_then_parse_amended.2.1 _ h2,
    c2_format_then_parse_amended.2.2.1 _ hdb,
    c2_format_then_parse_amended.2.2.2.1 _ hdb,
    c2_format_then_parse_amended.2.2.2.2.1 _ ⟨hdb, h1⟩ (by decide),
    c2_format_then_parse_amended.2.2.2.2.2 _ ⟨hdb, h2⟩ (by decide)⟩

end FirestorePath
